import Mathlib

/-!
# Verification of the repo-to-presentation analysis pipeline

A shallow embedding of the core pipeline of the repository:

* the URL parser (`GitHubAnalyzer.parseRepoUrl` in `src/app/services/prompts.ts`,
  and the identical inline regex in `route.ts`),
* the inbound URL validation of the request orchestrator (`validateRequest`),
* the content fetcher (`GitHubAnalyzer.analyzeRepository` and the inline
  `analyzeRepository` variant), with the GitHub read API abstracted as an oracle,
* the prompt assembler (`PromptGenerator` and the inline `generatePrompt` variant),
* the response normalizer (`parseClaudeResponse`), including a JSON
  serializer/parser model,
* the POST orchestrators of both route variants.

JavaScript strings are modelled as `List Char`; JS array/string `slice(0, n)` is
`List.take n`; fallible code returns `Option`/`Except`.
-/

/-- JS strings are modelled as lists of characters. -/
abbrev Str := List Char

/-- Literal helper: the character list of a Lean string literal. -/
def str (s : String) : Str := s.data

/-- `a` occurs as a contiguous substring of `b`. -/
def substrOf (a b : Str) : Prop := ∃ u v, b = u ++ a ++ v

/-- `startsWith p s`: `p` is a leading segment of `s`
(JS `String.prototype.startsWith`, regex literal match at a position). -/
def startsWith : Str → Str → Bool
  | [], _ => true
  | _ :: _, [] => false
  | p :: ps, c :: cs => p == c && startsWith ps cs

/-- `endsWith p s`: `p` is a trailing segment of `s`. -/
def endsWith (p s : Str) : Bool := startsWith p.reverse s.reverse

/-- JS whitespace for `String.prototype.trim` (the characters relevant here). -/
def isWs (c : Char) : Bool :=
  c == ' ' || c == '\t' || c == '\n' || c == '\r'

/-- JS `String.prototype.trim`. -/
def jsTrim (s : Str) : Str :=
  ((s.dropWhile isWs).reverse.dropWhile isWs).reverse

/-- JS `String.prototype.toLowerCase` (ASCII range, which is all the source uses). -/
def jsToLower (s : Str) : Str := s.map Char.toLower

/-!
## URL parser

`GitHubAnalyzer.parseRepoUrl` matches the regex

  `/github\.com\/([^\/]+)\/([^\/]+)(?:\.git)?(?:\/.*)?$/`

against the input and on success returns `(owner, repo)` with one trailing
`.git` stripped from the second capture (`repo.replace(/\.git$/, "")`).
The model below implements the regex's leftmost-match backtracking semantics
directly: the pattern is unanchored at the front, `[^\/]+` is greedy, `.`
does not match line terminators, and `$` is end of input.
-/

/-- JS regex `.`: any character except a line terminator. -/
def isLineTerm (c : Char) : Bool :=
  c == '\n' || c == '\r' || c.val == 0x2028 || c.val == 0x2029

/-- Tail of the URL regex after the second capture: `(?:\.git)?(?:\/.*)?$`.
`(?:\/.*)?$` matches `t` iff `t` is empty or `t` is `/` followed by
line-terminator-free text reaching the end. -/
def urlTail2 (t : Str) : Bool :=
  match t with
  | [] => true
  | '/' :: rest => rest.all (fun c => !isLineTerm c)
  | _ => false

/-- `(?:\.git)?(?:\/.*)?$` (the optional group is greedy, tried first;
for a boolean result this is a disjunction). -/
def urlTail (t : Str) : Bool :=
  (startsWith (str ".git") t && urlTail2 (t.drop 4)) || urlTail2 t

/-- Backtracking for the second capture `([^\/]+)`: candidates are the
prefixes of the maximal slash-free run, longest first.  `seg` is that maximal
run, `r2` the full remaining input, `k` the current candidate length. -/
def tryRepo (seg r2 : Str) : Nat → Option Str
  | 0 => none
  | k + 1 =>
    if urlTail (r2.drop (k + 1)) then some (seg.take (k + 1))
    else tryRepo seg r2 k

/-- Attempt the whole pattern at the current position:
`github\.com\/` literally, then `([^\/]+)\/` (the first capture is a maximal
slash-free run forced by the following `\/`), then the second capture. -/
def tryUrlAt (s : Str) : Option (Str × Str) :=
  if startsWith (str "github.com/") s then
    let r := s.drop 11
    let owner := r.takeWhile (· ≠ '/')
    if owner.isEmpty then none
    else
      match r.dropWhile (· ≠ '/') with
      | '/' :: r2 =>
        let seg := r2.takeWhile (· ≠ '/')
        match tryRepo seg r2 seg.length with
        | some repo => some (owner, repo)
        | none => none
      | _ => none
  else none

/-- Leftmost match: try the pattern at each start position in order. -/
def findUrlMatch : Str → Option (Str × Str)
  | [] => none
  | c :: rest =>
    match tryUrlAt (c :: rest) with
    | some m => some m
    | none => findUrlMatch rest

/-- `repo.replace(/\.git$/, "")`: strip one trailing `.git`. -/
def stripDotGit (s : Str) : Str :=
  if endsWith (str ".git") s then s.take (s.length - 4) else s

/-- The invalid-URL error message of `parseRepoUrl`. -/
def invalidUrlMsg : Str :=
  str "Invalid GitHub URL format. Please provide a valid GitHub repository URL."

/-- `GitHubAnalyzer.parseRepoUrl` (identical to the inline URL extraction in
`analyzeRepository` of the route's duplicate variant). -/
def parseRepoUrl (repoUrl : Str) : Except Str (Str × Str) :=
  match findUrlMatch repoUrl with
  | none => .error invalidUrlMsg
  | some (owner, repo) => .ok (owner, stripDotGit repo)

/-!
## Orchestrator URL validation

`validateRequest` tests `/^https:\/\/github\.com\/[\w\-\.]+\/[\w\-\.]+\/?$/`.
The pattern is anchored at both ends; `[\w\-\.]` is `[A-Za-z0-9_\-.]`.
Both character-class quantifiers are greedy and are followed by characters
outside the class, so the match is forced: the model checks the literal
prefix, two maximal nonempty class runs separated by `/`, and a remainder
of at most one `/`.
-/

/-- The character class `[\w\-\.]` of the validation regex. -/
def isUrlWordChar (c : Char) : Bool :=
  ('a' ≤ c && c ≤ 'z') || ('A' ≤ c && c ≤ 'Z') || ('0' ≤ c && c ≤ '9') ||
    c == '_' || c == '-' || c == '.'

/-- `/^https:\/\/github\.com\/[\w\-\.]+\/[\w\-\.]+\/?$/.test(repoUrl)`. -/
def routeUrlOk (s : Str) : Bool :=
  if startsWith (str "https://github.com/") s then
    let r := s.drop 19
    let a := r.takeWhile isUrlWordChar
    if a.isEmpty then false
    else
      match r.drop a.length with
      | '/' :: r2 =>
        let b := r2.takeWhile isUrlWordChar
        if b.isEmpty then false
        else
          match r2.drop b.length with
          | [] => true
          | ['/'] => true
          | _ => false
      | _ => false
  else false

/-!
## JSON model

`parseClaudeResponse` and the manifest fetch use `JSON.parse` /
`JSON.stringify`.  JSON values are modelled by an inductive type; numeric
literals are kept as their raw source token (no claim depends on numeric
values).  The parser is fuelled so that it is structurally recursive and
kernel-evaluable; `jsonParse` supplies ample fuel.
-/

inductive Json where
  | null : Json
  | bool (b : Bool) : Json
  | num (tok : Str) : Json
  | str (s : Str) : Json
  | arr (elems : List Json) : Json
  | obj (fields : List (Str × Json)) : Json

/-- Hexadecimal digit character (lowercase, as `JSON.stringify` emits). -/
def hexDigit (n : Nat) : Char :=
  if n < 10 then Char.ofNat ('0'.toNat + n) else Char.ofNat ('a'.toNat + n - 10)

/-- Four-digit hex rendering for `\uXXXX` escapes. -/
def hex4 (n : Nat) : Str :=
  [hexDigit (n / 4096 % 16), hexDigit (n / 256 % 16), hexDigit (n / 16 % 16),
    hexDigit (n % 16)]

/-- `JSON.stringify` escaping of one string character. -/
def escapeChar (c : Char) : Str :=
  if c = '"' then ['\\', '"']
  else if c = '\\' then ['\\', '\\']
  else if c = '\n' then ['\\', 'n']
  else if c = '\r' then ['\\', 'r']
  else if c = '\t' then ['\\', 't']
  else if c.val = 8 then ['\\', 'b']
  else if c.val = 12 then ['\\', 'f']
  else if c.val < 32 then '\\' :: 'u' :: hex4 c.toNat
  else [c]

def escapeStr : Str → Str
  | [] => []
  | c :: cs => escapeChar c ++ escapeStr cs

mutual
/-- `JSON.stringify(v)` (no indentation argument). -/
def stringify : Json → Str
  | .null => str "null"
  | .bool true => str "true"
  | .bool false => str "false"
  | .num t => t
  | .str s => '"' :: (escapeStr s ++ ['"'])
  | .arr l => '[' :: (stringifyArr l ++ [']'])
  | .obj l => '{' :: (stringifyObj l ++ ['}'])

def stringifyArr : List Json → Str
  | [] => []
  | [x] => stringify x
  | x :: y :: rest => stringify x ++ ',' :: stringifyArr (y :: rest)

def stringifyObj : List (Str × Json) → Str
  | [] => []
  | [(k, v)] => '"' :: (escapeStr k ++ '"' :: ':' :: stringify v)
  | (k, v) :: p :: rest =>
    '"' :: (escapeStr k ++ '"' :: ':' :: stringify v) ++ ',' :: stringifyObj (p :: rest)
end

/-- Value of a hexadecimal digit character. -/
def hexVal (c : Char) : Option Nat :=
  if '0' ≤ c ∧ c ≤ '9' then some (c.toNat - '0'.toNat)
  else if 'a' ≤ c ∧ c ≤ 'f' then some (c.toNat - 'a'.toNat + 10)
  else if 'A' ≤ c ∧ c ≤ 'F' then some (c.toNat - 'A'.toNat + 10)
  else none

/-- One-character JSON escape decodings (`\\"`, `\\\\`, `\\/`, `\\n`, `\\r`,
`\\t`, `\\b`, `\\f`). -/
def escDecode (e : Char) : Option Char :=
  if e = '"' then some '"'
  else if e = '\\' then some '\\'
  else if e = '/' then some '/'
  else if e = 'n' then some '\n'
  else if e = 'r' then some '\r'
  else if e = 't' then some '\t'
  else if e = 'b' then some (Char.ofNat 8)
  else if e = 'f' then some (Char.ofNat 12)
  else none

/-- JSON string-literal body parser (after the opening quote); returns the
decoded characters and the input after the closing quote.  Raw control
characters are rejected, as `JSON.parse` does. -/
def parseStrBody : Str → Option (Str × Str)
  | [] => none
  | c :: r =>
    if c = '"' then some ([], r)
    else if c = '\\' then
      match r with
      | [] => none
      | e :: r2 =>
        if e = 'u' then
          match r2 with
          | h1 :: h2 :: h3 :: h4 :: r3 =>
            match hexVal h1, hexVal h2, hexVal h3, hexVal h4 with
            | some a, some b, some cc, some d =>
              (parseStrBody r3).map fun (cs, rest) =>
                (Char.ofNat (a * 4096 + b * 256 + cc * 16 + d) :: cs, rest)
            | _, _, _, _ => none
          | _ => none
        else
          match escDecode e with
          | some d => (parseStrBody r2).map fun (cs, rest) => (d :: cs, rest)
          | none => none
    else if c.val < 32 then none
    else (parseStrBody r).map fun (cs, rest) => (c :: cs, rest)

/-- Characters that the numeric-token scanner consumes. -/
def isNumChar (c : Char) : Bool :=
  c.isDigit || c == '-' || c == '+' || c == '.' || c == 'e' || c == 'E'

mutual
/-- Fuelled JSON value parser: skips leading whitespace, dispatches on the
first character, returns the value and the unconsumed remainder. -/
def parseVal : Nat → Str → Option (Json × Str)
  | 0, _ => none
  | fuel + 1, s =>
    match s.dropWhile isWs with
    | [] => none
    | c :: rest =>
      if c = 'n' then
        if startsWith (str "ull") rest then some (.null, rest.drop 3) else none
      else if c = 't' then
        if startsWith (str "rue") rest then some (.bool true, rest.drop 3) else none
      else if c = 'f' then
        if startsWith (str "alse") rest then some (.bool false, rest.drop 4) else none
      else if c = '"' then
        (parseStrBody rest).map fun (cs, r) => (.str cs, r)
      else if c = '[' then
        match rest.dropWhile isWs with
        | ']' :: r => some (.arr [], r)
        | other => (parseElems fuel other).map fun (l, r) => (.arr l, r)
      else if c = '\x7b' then
        match rest.dropWhile isWs with
        | '\x7d' :: r => some (.obj [], r)
        | other => (parseFields fuel other).map fun (l, r) => (.obj l, r)
      else if c = '-' ∨ c.isDigit then
        let tok := (c :: rest).takeWhile isNumChar
        some (.num tok, (c :: rest).drop tok.length)
      else none

/-- Array elements after `[` (at least one element; `]` of an empty array is
handled by the caller). -/
def parseElems : Nat → Str → Option (List Json × Str)
  | 0, _ => none
  | fuel + 1, s =>
    match parseVal fuel s with
    | none => none
    | some (v, r) =>
      match r.dropWhile isWs with
      | ',' :: r2 => (parseElems fuel r2).map fun (l, rest) => (v :: l, rest)
      | ']' :: r2 => some ([v], r2)
      | _ => none

/-- Object members after `{` (at least one member). -/
def parseFields : Nat → Str → Option (List (Str × Json) × Str)
  | 0, _ => none
  | fuel + 1, s =>
    match s.dropWhile isWs with
    | '"' :: rest =>
      match parseStrBody rest with
      | none => none
      | some (k, r) =>
        match r.dropWhile isWs with
        | ':' :: r2 =>
          match parseVal fuel r2 with
          | none => none
          | some (v, r3) =>
            match r3.dropWhile isWs with
            | ',' :: r4 => (parseFields fuel r4).map fun (l, rest) => ((k, v) :: l, rest)
            | '}' :: r4 => some ([(k, v)], r4)
            | _ => none
        | _ => none
    | _ => none
end

/-- `JSON.parse`: parse one value, allow only trailing whitespace. -/
def jsonParse (s : Str) : Option Json :=
  match parseVal (2 * s.length + 2) s with
  | some (v, rest) => if (rest.dropWhile isWs).isEmpty then some v else none
  | none => none

/-- First-match association lookup (adequate for parse-produced objects,
whose keys are distinct). -/
def lookupField : List (Str × Json) → Str → Option Json
  | [], _ => none
  | (k, v) :: rest, key => if k = key then some v else lookupField rest key

/-- JS property access `j[key]` on a parsed JSON value: `undefined` (here
`none`) unless `j` is an object with that key. -/
def jlookup (j : Json) (key : Str) : Option Json :=
  match j with
  | .obj fields => lookupField fields key
  | _ => none

/-- Truthiness of a numeric literal token (produced by the parser from valid
JSON input): the mantissa has a nonzero digit. -/
def numTruthy (t : Str) : Bool :=
  (t.takeWhile (fun c => c ≠ 'e' ∧ c ≠ 'E')).any (fun c => '1' ≤ c && c ≤ '9')

/-- JS truthiness of a parsed JSON value. -/
def truthy : Json → Bool
  | .null => false
  | .bool b => b
  | .num t => numTruthy t
  | .str s => !s.isEmpty
  | .arr _ => true
  | .obj _ => true

/-- JS truthiness of a property access (`undefined` is falsy). -/
def truthyOpt : Option Json → Bool
  | none => false
  | some j => truthy j

/-- `Array.isArray(j[\x7bsections\x7d])`-style check used by the validator. -/
def isArrayProp (p : Option Json) : Bool :=
  match p with
  | some (.arr _) => true
  | _ => false

/-- The stage-1 shape validation of `parseClaudeResponse`:
`!parsed.title || !parsed.overview || !Array.isArray(parsed.sections)`
fails the parse; this is the accepted complement. -/
def shapeOk (j : Json) : Bool :=
  truthyOpt (jlookup j (str "title")) && truthyOpt (jlookup j (str "overview")) &&
    isArrayProp (jlookup j (str "sections"))

/-!
## Response normalizer

`parseClaudeResponse` first strips code-fence markers —
`.replace(/` ``` `json\n?/g, "").replace(/` ``` `\n?/g, "")` — trims, parses,
and shape-checks; on any failure it falls back to extracting the first
`/\{[\s\S]*\}/` match (first `{` through last `}`) of the *original* text and
parsing that without shape validation.
-/

/-- Global deleting replace of `pat` plus one optional following newline
(regex `/pat\n?/g`): scan left to right, skip matches, never rescan.
`skip` counts characters of a match still to be consumed. -/
def replaceDelGo (pat : Str) : Nat → Str → Str
  | _, [] => []
  | skip + 1, _ :: cs => replaceDelGo pat skip cs
  | 0, c :: cs =>
    if startsWith (pat ++ ['\n']) (c :: cs) then replaceDelGo pat pat.length cs
    else if startsWith pat (c :: cs) then replaceDelGo pat (pat.length - 1) cs
    else c :: replaceDelGo pat 0 cs

def replaceDel (pat s : Str) : Str := replaceDelGo pat 0 s

/-- The fence-stripping and trim producing `cleanedText`. -/
def cleanedText (text : Str) : Str :=
  jsTrim (replaceDel (str "```") (replaceDel (str "```json") text))

/-- `text.match(/\{[\s\S]*\}/)`: the span from the first `{` to the last `}`,
when the first `{` precedes the last `}`. -/
def braceSpan (s : Str) : Option Str :=
  match s.findIdx? (· = '{'), s.reverse.findIdx? (· = '}') with
  | some i, some ri =>
    let j := s.length - 1 - ri
    if i < j then some ((s.drop i).take (j - i + 1)) else none
  | _, _ => none

/-- Failure modes of the response normalizer: the explicit "failed to
generate properly formatted presentation content" error, or a JSON syntax
error propagating out of the fallback `JSON.parse`. -/
inductive NormErr where
  | malformed : NormErr
  | syntaxErr : NormErr
deriving DecidableEq

/-- `parseClaudeResponse` (route primary variant; the duplicate variant's
inline parsing applies the same two stages). -/
def parseClaudeResponse (text : Str) : Except NormErr Json :=
  let fallback : Except NormErr Json :=
    match braceSpan text with
    | some m =>
      match jsonParse m with
      | some r => .ok r
      | none => .error .syntaxErr
    | none => .error .malformed
  match jsonParse (cleanedText text) with
  | some parsed => if shapeOk parsed then .ok parsed else fallback
  | none => fallback

/-!
## Content fetcher

`GitHubAnalyzer` (`services/prompts.ts` second part / `GitHubAnalyzer.ts`) and
the inline `analyzeRepository` of the route's duplicate variant.  The GitHub
read API is abstracted as an oracle: the result of `octokit.repos.get`, the
result of `octokit.repos.getContent` per path (already base64-decoded — the
source decodes every `content` field), and the root listing.
-/

/-- Fields of the `octokit.repos.get` payload that the source reads.
`description`, `language` and `topics` may be `null` upstream. -/
structure RepoData where
  name : Str
  description : Option Str
  language : Option Str
  topics : Option (List Str)
  stargazers_count : Nat
  forks_count : Nat
  size : Nat

/-- Outcome of `octokit.repos.get`, by HTTP status class. -/
inductive RepoFetch where
  | ok (d : RepoData)
  | notFound
  | forbidden
  | failure (msg : Str)

/-- Outcome of `octokit.repos.getContent` for a file path: the request threw,
returned a payload without a `content` field, or returned decodable content. -/
inductive ContentFetch where
  | err
  | noContent
  | content (data : Str)

/-- Outcome of `octokit.repos.getContent` for the repository root:
threw (propagates), a non-array payload, or the entry list. -/
inductive RootListing (Entry : Type) where
  | err (msg : Str)
  | single
  | entries (l : List Entry)

/-- One root-listing entry: the fields the source reads. -/
structure Entry where
  type : Str
  name : Str
  size : Nat

/-- The GitHub read-API oracle for one `(owner, repo)` pair. -/
structure GithubApi where
  repo : RepoFetch
  getContent : Str → ContentFetch
  root : RootListing Entry

/-- `fetchRepositoryData`: maps 404/403/other failures of `octokit.repos.get`
to the three descriptive error messages. -/
def fetchRepositoryData (api : GithubApi) : Except Str RepoData :=
  match api.repo with
  | .ok d => .ok d
  | .notFound =>
    .error (str "Repository not found. Please check that the repository exists and is public.")
  | .forbidden =>
    .error (str "Access forbidden. The repository may be private or you may have hit rate limits.")
  | .failure m => .error (str "Failed to access repository: " ++ m)

def README_FILES : List Str :=
  [str "README.md", str "readme.md", str "README.rst", str "README.txt", str "README"]

def CONFIG_FILES : List Str :=
  [str "package.json", str "pyproject.toml", str "Cargo.toml", str "go.mod", str "pom.xml"]

/-- `fetchReadme`: first successful content among the README filename
variants; every individual failure (throw or missing `content` field) moves
on to the next variant; empty string when all fail. -/
def fetchReadmeFrom (api : GithubApi) : List Str → Str
  | [] => []
  | f :: rest =>
    match api.getContent f with
    | .content c => c
    | _ => fetchReadmeFrom api rest

def fetchReadme (api : GithubApi) : Str := fetchReadmeFrom api README_FILES

/-- The manifest payload: parsed JSON for `package.json`, else
`{ type: filename, content }`. -/
inductive Manifest where
  | json (j : Json)
  | rawFile (kind : Str) (content : Str)

/-- `fetchConfigFile`: first found manifest; `JSON.parse` is applied only for
`package.json`, and a parse throw is swallowed by the surrounding
try/catch (the loop continues); `null` when none found. -/
def fetchConfigFrom (api : GithubApi) : List Str → Option Manifest
  | [] => none
  | f :: rest =>
    match api.getContent f with
    | .content c =>
      if f = str "package.json" then
        match jsonParse c with
        | some j => some (.json j)
        | none => fetchConfigFrom api rest
      else some (.rawFile f c)
    | _ => fetchConfigFrom api rest

def fetchConfigFile (api : GithubApi) : Option Manifest := fetchConfigFrom api CONFIG_FILES

/-- The extension after the last dot (`filename.split('.').pop()`), the whole
name when there is no dot, lowercased. -/
def extOf (filename : Str) : Str :=
  jsToLower ((filename.reverse.takeWhile (· ≠ '.')).reverse)

/-- `isKeyFile`: the five case-insensitive regex patterns, expanded into
their finite alternatives over the lowercased filename. -/
def isKeyFile (filename : Str) : Bool :=
  let lower := jsToLower filename
  -- /^(index|main|app|server)\.(js|ts|jsx|tsx|py|go|rs|java)$/i
  ([str "index", str "main", str "app", str "server"].any fun b =>
    [str "js", str "ts", str "jsx", str "tsx", str "py", str "go", str "rs",
      str "java"].any fun e => lower = b ++ '.' :: e) ||
  -- /\.(config|conf)\.(js|ts|json|yaml|yml|toml)$/i
  ([str "config", str "conf"].any fun m =>
    [str "js", str "ts", str "json", str "yaml", str "yml", str "toml"].any fun e =>
      endsWith ('.' :: m ++ '.' :: e) lower) ||
  -- /^(dockerfile|makefile|rakefile)$/i
  ([str "dockerfile", str "makefile", str "rakefile"].any fun b => lower = b) ||
  -- /^(changelog|contributing|license|authors|contributors)\.(md|txt|rst)$/i
  ([str "changelog", str "contributing", str "license", str "authors",
    str "contributors"].any fun b =>
    [str "md", str "txt", str "rst"].any fun e => lower = b ++ '.' :: e) ||
  -- /^(package\.json|requirements\.txt|go\.mod|cargo\.toml|gemfile|composer\.json)$/i
  ([str "package.json", str "requirements.txt", str "go.mod", str "cargo.toml",
    str "gemfile", str "composer.json"].any fun b => lower = b)

/-- `getFileType` of `GitHubAnalyzer` (`services` variant): the abbreviated
extension map of that file. -/
def getFileType (filename : Str) : Str :=
  let ext := extOf filename
  if ext = str "js" then str "JavaScript"
  else if ext = str "ts" then str "TypeScript"
  else if ext = str "jsx" then str "React"
  else if ext = str "tsx" then str "React TypeScript"
  else if ext = str "py" then str "Python"
  else if ext = str "json" then str "Configuration"
  else if ext = str "md" then str "Documentation"
  else str "Other"

/-- `getFileType` of the route's duplicate variant: the full extension map. -/
def getFileTypeV2 (filename : Str) : Str :=
  let ext := extOf filename
  if ext = str "js" then str "JavaScript"
  else if ext = str "ts" then str "TypeScript"
  else if ext = str "jsx" then str "React"
  else if ext = str "tsx" then str "React TypeScript"
  else if ext = str "py" then str "Python"
  else if ext = str "go" then str "Go"
  else if ext = str "rs" then str "Rust"
  else if ext = str "java" then str "Java"
  else if ext = str "cpp" then str "C++"
  else if ext = str "c" then str "C"
  else if ext = str "cs" then str "C#"
  else if ext = str "php" then str "PHP"
  else if ext = str "rb" then str "Ruby"
  else if ext = str "swift" then str "Swift"
  else if ext = str "kt" then str "Kotlin"
  else if ext = str "json" then str "Configuration"
  else if ext = str "yaml" then str "Configuration"
  else if ext = str "yml" then str "Configuration"
  else if ext = str "toml" then str "Configuration"
  else if ext = str "html" then str "HTML"
  else if ext = str "css" then str "Stylesheet"
  else if ext = str "scss" then str "Sass"
  else if ext = str "less" then str "Less"
  else if ext = str "md" then str "Documentation"
  else if ext = str "rst" then str "Documentation"
  else if ext = str "txt" then str "Documentation"
  else str "Other"

/-- `a.name.localeCompare(b.name) <= 0`, modelled as code-point
lexicographic comparison. -/
def lexLe : Str → Str → Bool
  | [], _ => true
  | _ :: _, [] => false
  | a :: xs, b :: ys => if a < b then true else if b < a then false else lexLe xs ys

/-- The sort comparator: directories first, then by name
(`comparator(a, b) <= 0`). -/
def entryLe (a b : Entry) : Bool :=
  if a.type = b.type then lexLe a.name b.name else a.type = str "dir"

/-- Stable insertion of `x` before the first element it compares `<=` to. -/
def insertSorted (le : α → α → Bool) (x : α) : List α → List α
  | [] => [x]
  | y :: ys => if le x y then x :: y :: ys else y :: insertSorted le x ys

/-- Stable sort, modelling `Array.prototype.sort` (stable per ES2019) with a
consistent comparator. -/
def sortBy (le : α → α → Bool) : List α → List α
  | [] => []
  | x :: xs => insertSorted le x (sortBy le xs)

/-- One `fileStructure` line:
``${item.type}: ${item.name}${item.type === 'dir' ? '/' : ''}``. -/
def renderEntryLine (e : Entry) : Str :=
  e.type ++ str ": " ++ e.name ++ (if e.type = str "dir" then str "/" else [])

structure KeyFile where
  path : Str
  content : Str
  type : Str

/-- The per-entry loop of `analyzeFileStructure`: push a structure line for
every entry; for small-enough key files fetch content (a throw or a missing
`content` field skips the file, never aborts the batch). -/
def structLoop (api : GithubApi) (ftype : Str → Str) :
    List Entry → List Str × List KeyFile
  | [] => ([], [])
  | item :: rest =>
    let (fs, ks) := structLoop api ftype rest
    let line := renderEntryLine item
    if item.type = str "file" ∧ isKeyFile item.name ∧ item.size ≠ 0 ∧
        item.size < 50000 ∧ 0 < item.size then
      match api.getContent item.name with
      | .content c =>
        (line :: fs,
          { path := item.name, type := ftype item.name, content := c.take 3000 } :: ks)
      | _ => (line :: fs, ks)
    else (line :: fs, ks)

/-- `analyzeFileStructure`: root listing (a throw propagates; a non-array
payload yields empty results), sorted directories-first then by name,
truncated to 30 entries, then the per-entry loop. -/
def analyzeFileStructure (api : GithubApi) (ftype : Str → Str) :
    Except Str (List Str × List KeyFile) :=
  match api.root with
  | .err m => .error m
  | .single => .ok ([], [])
  | .entries contents =>
    .ok (structLoop api ftype ((sortBy entryLe contents).take 30))

structure RepoStats where
  stars : Nat
  forks : Nat
  size : Nat

structure RepoAnalysis where
  name : Str
  description : Str
  language : Str
  topics : List Str
  readme : Str
  packageJson : Option Manifest
  fileStructure : List Str
  keyFiles : List KeyFile
  stats : RepoStats

/-- JS `x || dflt` for a nullable string field. -/
def jsOrStr (v : Option Str) (dflt : Str) : Str :=
  match v with
  | some s => if s.isEmpty then dflt else s
  | none => dflt

/-- `GitHubAnalyzer.analyzeRepository`: parse the URL, fetch metadata
(mandatory), README, manifest and file structure, and assemble the bounded
analysis.  The surrounding try/catch rethrows `Error` instances unchanged,
which is the identity in this model. -/
def analyzeRepository (api : GithubApi) (repoUrl : Str) : Except Str RepoAnalysis := do
  let _ ← parseRepoUrl repoUrl
  let repoData ← fetchRepositoryData api
  let readme := fetchReadme api
  let packageJson := fetchConfigFile api
  let (fileStructure, keyFiles) ← analyzeFileStructure api getFileType
  return { name := repoData.name,
           description := jsOrStr repoData.description [],
           language := jsOrStr repoData.language (str "Unknown"),
           topics := repoData.topics.getD [],
           readme := readme.take 5000,
           packageJson, fileStructure, keyFiles,
           stats := { stars := repoData.stargazers_count,
                      forks := repoData.forks_count,
                      size := repoData.size } }

/-- The inline `analyzeRepository` of the route's duplicate variant: same
pipeline and messages, with the full extension map. -/
def analyzeRepositoryV2 (api : GithubApi) (repoUrl : Str) : Except Str RepoAnalysis := do
  let _ ← parseRepoUrl repoUrl
  let repoData ← fetchRepositoryData api
  let readme := fetchReadme api
  let packageJson := fetchConfigFile api
  let (fileStructure, keyFiles) ← analyzeFileStructure api getFileTypeV2
  return { name := repoData.name,
           description := jsOrStr repoData.description [],
           language := jsOrStr repoData.language (str "Unknown"),
           topics := repoData.topics.getD [],
           readme := readme.take 5000,
           packageJson, fileStructure, keyFiles,
           stats := { stars := repoData.stargazers_count,
                      forks := repoData.forks_count,
                      size := repoData.size } }

/-!
## Prompt assembler

`PromptGenerator` (`services/prompts.ts`) and the inline `generatePrompt` of
the route's duplicate variant.  The configuration's `audience` and
`timeConstraint` are TypeScript-level enumerations with no runtime check, so
they are modelled as strings; an object lookup at a missing key is
`undefined`, which a template literal renders as the text `undefined`.
-/

structure PresentationConfig where
  audience : Str
  timeConstraint : Str
  includeQA : Bool
  includeLiveDemo : Bool

/-- `PromptGenerator.AUDIENCE_CONTEXT` (five entries). -/
def AUDIENCE_CONTEXT (a : Str) : Option Str :=
  if a = str "conference" then some (str "developer conference with technical audience expecting innovative solutions, best practices, and cutting-edge approaches")
  else if a = str "internal" then some (str "team demonstration focusing on implementation details, architectural decisions, and collaboration benefits")
  else if a = str "client" then some (str "business stakeholder presentation emphasizing value proposition, practical outcomes, and ROI")
  else if a = str "interview" then some (str "technical interview showcasing problem-solving approach, code quality, and engineering thinking")
  else if a = str "workshop" then some (str "hands-on learning session with interactive components, practical exercises, and audience participation")
  else none

/-- `PromptGenerator.TIME_GUIDANCE` (four entries). -/
def TIME_GUIDANCE (t : Str) : Option Str :=
  if t = str "5min" then some (str "Lightning talk - hit only the most impressive highlights and key innovations")
  else if t = str "15min" then some (str "Balanced overview with key technical details and compelling demonstrations")
  else if t = str "30min" then some (str "Comprehensive walkthrough with deep dives into interesting technical sections")
  else if t = str "1hour" then some (str "Detailed exploration with multiple examples, architecture deep-dives, hands-on exercises, and extensive Q&A preparation")
  else none

/-- `PromptGenerator.FOCUS_AREAS` (five entries). -/
def FOCUS_AREAS (a : Str) : Option Str :=
  if a = str "conference" then some (str "technical innovation, architecture decisions, performance optimizations, unique solutions")
  else if a = str "internal" then some (str "implementation approach, team collaboration, development workflow, technical debt solutions")
  else if a = str "client" then some (str "business value, user impact, scalability, reliability, time-to-market benefits")
  else if a = str "interview" then some (str "problem-solving process, code quality, testing approach, scalability considerations")
  else if a = str "workshop" then some (str "practical application, hands-on exercises, interactive demonstrations, learning objectives")
  else none

/-- The `audienceContext` table of the duplicate variant (four entries:
no `workshop`). -/
def audienceContextV2 (a : Str) : Option Str :=
  if a = str "conference" then some (str "developer conference with technical audience expecting innovative solutions, best practices, and cutting-edge approaches")
  else if a = str "internal" then some (str "team demonstration focusing on implementation details, architectural decisions, and collaboration benefits")
  else if a = str "client" then some (str "business stakeholder presentation emphasizing value proposition, practical outcomes, and ROI")
  else if a = str "interview" then some (str "technical interview showcasing problem-solving approach, code quality, and engineering thinking")
  else none

/-- The `timeGuidance` table of the duplicate variant (keys `5min`, `15min`,
`30min`, `45min+`: no `1hour`). -/
def timeGuidanceV2 (t : Str) : Option Str :=
  if t = str "5min" then some (str "Lightning talk - hit only the most impressive highlights and key innovations")
  else if t = str "15min" then some (str "Balanced overview with key technical details and compelling demonstrations")
  else if t = str "30min" then some (str "Comprehensive walkthrough with deep dives into interesting technical sections")
  else if t = str "45min+" then some (str "Detailed exploration with multiple examples, architecture deep-dives, and extensive Q&A preparation")
  else none

/-- The `focusAreas` table of the duplicate variant (four entries). -/
def focusAreasV2 (a : Str) : Option Str :=
  if a = str "conference" then some (str "technical innovation, architecture decisions, performance optimizations, unique solutions")
  else if a = str "internal" then some (str "implementation approach, team collaboration, development workflow, technical debt solutions")
  else if a = str "client" then some (str "business value, user impact, scalability, reliability, time-to-market benefits")
  else if a = str "interview" then some (str "problem-solving process, code quality, testing approach, scalability considerations")
  else none

/-- A template literal renders `undefined` (a missing table entry) as the
text `undefined`. -/
def renderLookup (o : Option Str) : Str :=
  match o with
  | some s => s
  | none => str "undefined"

/-- A template literal renders a boolean as `true`/`false`. -/
def renderBool (b : Bool) : Str :=
  if b then str "true" else str "false"

/-- Decimal digit character. -/
def digitChar (n : Nat) : Char := Char.ofNat ('0'.toNat + n)

def natToStrGo : Nat → Nat → Str → Str
  | 0, _, acc => acc
  | fuel + 1, n, acc =>
    if n < 10 then digitChar n :: acc
    else natToStrGo fuel (n / 10) (digitChar (n % 10) :: acc)

/-- A template literal renders a nonnegative number in decimal. -/
def natToStr (n : Nat) : Str := natToStrGo (n + 1) n []

/-- `Array.prototype.join(sep)`. -/
def joinSep (sep : Str) : List Str → Str
  | [] => []
  | [x] => x
  | x :: y :: rest => x ++ sep ++ joinSep sep (y :: rest)

def indentStr (n : Nat) : Str := List.replicate n ' '

mutual
/-- `JSON.stringify(v, null, 2)`: two-space-indented serialization, at
current indentation `ind`. -/
def pretty (ind : Nat) : Json → Str
  | .null => str "null"
  | .bool true => str "true"
  | .bool false => str "false"
  | .num t => t
  | .str s => '"' :: (escapeStr s ++ ['"'])
  | .arr [] => str "[]"
  | .arr (x :: xs) =>
    '[' :: '\n' :: (prettyArr (ind + 2) (x :: xs) ++ '\n' :: (indentStr ind ++ [']']))
  | .obj [] => str "\x7b\x7d"
  | .obj (f :: fs) =>
    '\x7b' :: '\n' :: (prettyObj (ind + 2) (f :: fs) ++ '\n' :: (indentStr ind ++ ['\x7d']))

def prettyArr (ind : Nat) : List Json → Str
  | [] => []
  | [x] => indentStr ind ++ pretty ind x
  | x :: y :: rest => indentStr ind ++ pretty ind x ++ str ",\n" ++ prettyArr ind (y :: rest)

def prettyObj (ind : Nat) : List (Str × Json) → Str
  | [] => []
  | [(k, v)] => indentStr ind ++ '"' :: (escapeStr k ++ str "\": " ++ pretty ind v)
  | (k, v) :: p :: rest =>
    indentStr ind ++ '"' :: (escapeStr k ++ str "\": " ++ pretty ind v) ++ str ",\n" ++
      prettyObj ind (p :: rest)
end

/-- The manifest as the JS value passed to `JSON.stringify`: the parsed JSON
for `package.json`, else the `\x7b type, content \x7d` wrapper object. -/
def manifestValue : Manifest → Json
  | .json j => j
  | .rawFile kind content =>
    .obj [(str "type", .str kind), (str "content", .str content)]

/-- `PromptGenerator.buildSystemPrompt`. -/
def buildSystemPrompt (config : PresentationConfig) : Str :=
  str "You are an expert presentation coach specializing in technical demos and developer advocacy. Create a compelling, well-structured run-of-show for presenting this GitHub repository to " ++
    renderLookup (AUDIENCE_CONTEXT config.audience) ++ str "."

/-- `PromptGenerator.buildRepoAnalysisSection`. -/
def buildRepoAnalysisSection (a : RepoAnalysis) : Str :=
  str "REPOSITORY ANALYSIS:\n- Name: " ++ a.name ++
  str "\n- Description: " ++ a.description ++
  str "\n- Primary Language: " ++ a.language ++
  str "\n- Topics/Tags: " ++ joinSep (str ", ") a.topics ++
  str "\n- Repository Stats: " ++ natToStr a.stats.stars ++ str " stars, " ++
    natToStr a.stats.forks ++ str " forks\n- Size: " ++ natToStr a.stats.size ++
  str "KB\n\nREADME CONTENT:\n" ++ a.readme ++
  str "\n\nREPOSITORY STRUCTURE:\n" ++ joinSep (str "\n") a.fileStructure ++
  str "\n\nKEY FILES ANALYZED:\n" ++
    joinSep (str "\n\n")
      (a.keyFiles.map fun f => f.path ++ str " (" ++ f.type ++ str "):\n" ++ f.content) ++
  str "\n\n" ++
  (match a.packageJson with
   | some m =>
     str "CONFIGURATION/DEPENDENCIES:\n" ++ (pretty 0 (manifestValue m)).take 1000
   | none => [])

/-- `PromptGenerator.buildRequirementsSection`. -/
def buildRequirementsSection (config : PresentationConfig) : Str :=
  str "PRESENTATION REQUIREMENTS:\n- Target Duration: " ++ config.timeConstraint ++
  str "\n- Time Guidance: " ++ renderLookup (TIME_GUIDANCE config.timeConstraint) ++
  str "\n- Focus Areas: " ++ renderLookup (FOCUS_AREAS config.audience) ++
  str "\n- Include Q&A Preparation: " ++ renderBool config.includeQA ++
  str "\n- Include Live Demo Suggestions: " ++ renderBool config.includeLiveDemo

/-- `PromptGenerator.buildStorytellingSection` (static). -/
def buildStorytellingSection : Str :=
  str "STORYTELLING FRAMEWORK:\nCreate a narrative arc that follows this structure:\n1. Hook: What problem does this solve that developers care about?\n2. Context: Why is this solution needed/better than alternatives?\n3. Journey: Walk through the most impressive technical decisions\n4. Impact: What makes this worth paying attention to?\n5. Call-to-action: What should the audience do next?"

/-- `PromptGenerator.buildInstructionsSection`: static text plus one extra
bullet for the workshop audience. -/
def buildInstructionsSection (config : PresentationConfig) : Str :=
  let baseInstructions := str "SPECIFIC INSTRUCTIONS:\n- Identify the 2-3 most technically impressive aspects of this codebase\n- Create smooth transitions between sections that maintain engagement\n- Include specific file/code references where appropriate\n- Balance technical depth with accessibility for the target audience\n- Suggest timing for dramatic pauses, code reveals, or demo moments\n- Anticipate skeptical questions and prepare confident responses"
  let workshopAddition :=
    if config.audience = str "workshop" then
      str "\n- Include hands-on exercises and interactive elements appropriate for the timeframe"
    else []
  baseInstructions ++ workshopAddition

/-- `PromptGenerator.buildOutputFormatSection`: the literal JSON template;
the two Q&A fields appear only when `includeQA`. -/
def buildOutputFormatSection (config : PresentationConfig) : Str :=
  let qaSection :=
    if config.includeQA then
      str "\n  \"qaPredictions\": [\n    \"Most likely audience question based on complexity\",\n    \"Common skeptical question about approach\", \n    \"Implementation detail question\"\n  ],\n  \"techQuestions\": [\n    \"Deep technical question for advanced audience\",\n    \"Architecture decision rationale question\",\n    \"Scalability/performance question\"\n  ],"
    else []
  str "Return a JSON object with this exact structure (ensure valid JSON syntax):\n\x7b\n  \"title\": \"Compelling presentation title that captures the core innovation\",\n  \"overview\": \"2-3 sentence overview that hooks the audience and sets expectations\",\n  \"sections\": [\n    \x7b\n      \"title\": \"Section name that clearly indicates what will be covered\",\n      \"duration\": \"X minutes\",\n      \"content\": \"Detailed description of what to present in this section, including specific talking points and technical highlights\",\n      \"presenterNotes\": [\n        \"Specific timing notes and pacing guidance\",\n        \"Key emphasis points and moments to pause\",\n        \"Transition cues and setup for next section\",\n        \"Backup explanations for complex concepts\"\n      ],\n      \"keyPoints\": [\n        \"Primary takeaway for audience\",\n        \"Technical highlight to emphasize\", \n        \"Business/practical value point\"\n      ]\n    \x7d\n  ]," ++
  qaSection ++
  str "\n  \"closingNotes\": \"Strategic advice for ending strong, including call-to-action and memorable final thought\"\n\x7d\n\nCRITICAL: Make this presentation authentic to the actual codebase analyzed, not generic. Reference specific files, architectural decisions, and technical approaches found in the repository. Create a story that makes developers think \"I need to check this out\" or \"I want to try this approach.\""

/-- `PromptGenerator.generate`: the system prompt and the five sections,
joined with blank lines. -/
def generate (repoAnalysis : RepoAnalysis) (config : PresentationConfig) : Str :=
  joinSep (str "\n\n")
    [buildSystemPrompt config,
     buildRepoAnalysisSection repoAnalysis,
     buildRequirementsSection config,
     buildStorytellingSection,
     buildInstructionsSection config,
     buildOutputFormatSection config]

/-- The inline `generatePrompt` of the route's duplicate variant: one
template literal, using the four-entry tables, without the workshop
instruction bullet, and with the Q&A fields inserted on their own indented
line. -/
def generatePromptV2 (repoAnalysis : RepoAnalysis) (config : PresentationConfig) : Str :=
  str "You are an expert presentation coach specializing in technical demos and developer advocacy. Create a compelling, well-structured run-of-show for presenting this GitHub repository to " ++
  renderLookup (audienceContextV2 config.audience) ++
  str ".\n\nREPOSITORY ANALYSIS:\n- Name: " ++ repoAnalysis.name ++
  str "\n- Description: " ++ repoAnalysis.description ++
  str "\n- Primary Language: " ++ repoAnalysis.language ++
  str "\n- Topics/Tags: " ++ joinSep (str ", ") repoAnalysis.topics ++
  str "\n- Repository Stats: " ++ natToStr repoAnalysis.stats.stars ++ str " stars, " ++
    natToStr repoAnalysis.stats.forks ++ str " forks\n- Size: " ++
    natToStr repoAnalysis.stats.size ++
  str "KB\n\nREADME CONTENT:\n" ++ repoAnalysis.readme ++
  str "\n\nREPOSITORY STRUCTURE:\n" ++ joinSep (str "\n") repoAnalysis.fileStructure ++
  str "\n\nKEY FILES ANALYZED:\n" ++
    joinSep (str "\n\n")
      (repoAnalysis.keyFiles.map fun f =>
        f.path ++ str " (" ++ f.type ++ str "):\n" ++ f.content) ++
  str "\n\n" ++
  (match repoAnalysis.packageJson with
   | some m =>
     str "CONFIGURATION/DEPENDENCIES:\n" ++ (pretty 0 (manifestValue m)).take 1000
   | none => []) ++
  str "\n\nPRESENTATION REQUIREMENTS:\n- Target Duration: " ++ config.timeConstraint ++
  str "\n- Time Guidance: " ++ renderLookup (timeGuidanceV2 config.timeConstraint) ++
  str "\n- Focus Areas: " ++ renderLookup (focusAreasV2 config.audience) ++
  str "\n- Include Q&A Preparation: " ++ renderBool config.includeQA ++
  str "\n- Include Live Demo Suggestions: " ++ renderBool config.includeLiveDemo ++
  str "\n\nSTORYTELLING FRAMEWORK:\nCreate a narrative arc that follows this structure:\n1. Hook: What problem does this solve that developers care about?\n2. Context: Why is this solution needed/better than alternatives?\n3. Journey: Walk through the most impressive technical decisions\n4. Impact: What makes this worth paying attention to?\n5. Call-to-action: What should the audience do next?\n\nSPECIFIC INSTRUCTIONS:\n- Identify the 2-3 most technically impressive aspects of this codebase\n- Create smooth transitions between sections that maintain engagement\n- Include specific file/code references where appropriate\n- Balance technical depth with accessibility for the target audience\n- Suggest timing for dramatic pauses, code reveals, or demo moments\n- Anticipate skeptical questions and prepare confident responses\n\nReturn a JSON object with this exact structure (ensure valid JSON syntax):\n\x7b\n  \"title\": \"Compelling presentation title that captures the core innovation\",\n  \"overview\": \"2-3 sentence overview that hooks the audience and sets expectations\",\n  \"sections\": [\n    \x7b\n      \"title\": \"Section name that clearly indicates what will be covered\",\n      \"duration\": \"X minutes\",\n      \"content\": \"Detailed description of what to present in this section, including specific talking points and technical highlights\",\n      \"presenterNotes\": [\n        \"Specific timing notes and pacing guidance\",\n        \"Key emphasis points and moments to pause\",\n        \"Transition cues and setup for next section\",\n        \"Backup explanations for complex concepts\"\n      ],\n      \"keyPoints\": [\n        \"Primary takeaway for audience\",\n        \"Technical highlight to emphasize\",\n        \"Business/practical value point\"\n      ]\n    \x7d\n  ],\n  " ++
  (if config.includeQA then
    str "\"qaPredictions\": [\n    \"Most likely audience question based on complexity\",\n    \"Common skeptical question about approach\",\n    \"Implementation detail question\"\n  ],\n  \"techQuestions\": [\n    \"Deep technical question for advanced audience\",\n    \"Architecture decision rationale question\",\n    \"Scalability/performance question\"\n  ],"
   else []) ++
  str "\n  \"closingNotes\": \"Strategic advice for ending strong, including call-to-action and memorable final thought\"\n\x7d\n\nCRITICAL: Make this presentation authentic to the actual codebase analyzed, not generic. Reference specific files, architectural decisions, and technical approaches found in the repository. Create a story that makes developers think \"I need to check this out\" or \"I want to try this approach.\""

/-!
## Request orchestrators

The primary `POST` (with `validateRequest` and `ValidationError`) and the
duplicate variant's `POST`.  The request body, the Anthropic client and the
clock are oracles; `ValidationError` instances map to 400 in the primary
variant's catch-all, every other thrown error to 500.
-/

/-- A JS value in the `repoUrl` position: a string or something else. -/
inductive JUrl where
  | jstr (s : Str)
  | jother

/-- A JS value in the `config` position: an object (carrying the fields the
pipeline reads) or something else (including `null`). -/
inductive JsConfig where
  | cobj (c : PresentationConfig)
  | cother

/-- The parsed request body (fields may be absent). -/
structure RawBody where
  repoUrl : Option JUrl
  config : Option JsConfig

/-- Thrown errors, distinguished by `instanceof ValidationError`. -/
inductive AppError where
  | validation (msg : Str)
  | plain (msg : Str)

/-- `validateRequest` of the primary variant: body parse, URL present and a
nonempty string, URL regex, config present and an object, API key present. -/
def validateRequest (body : Except Unit RawBody) (apiKeySet : Bool) :
    Except AppError (Str × PresentationConfig) :=
  match body with
  | .error _ => .error (.validation (str "Invalid JSON in request body"))
  | .ok b =>
    match b.repoUrl with
    | some (.jstr u) =>
      if u.isEmpty then
        .error (.validation (str "Repository URL is required and must be a string"))
      else if routeUrlOk u then
        match b.config with
        | some (.cobj c) =>
          if apiKeySet then .ok (u, c)
          else .error (.plain (str "Server configuration error. Please check API key setup."))
        | _ => .error (.validation (str "Presentation configuration is required"))
      else .error (.validation (str "Repository URL must be a valid GitHub URL"))
    | _ => .error (.validation (str "Repository URL is required and must be a string"))

/-- One content block of the Anthropic response. -/
inductive Block where
  | text (s : Str)
  | other

/-- The Anthropic client as an oracle: the prompt determines the outcome
(a thrown error's message, or the content blocks). -/
abbrev ClaudeOracle := Str → Except Str (List Block)

/-- `generatePresentation` of the primary variant: call Claude, require a
text first block, normalize.  An empty content list is the runtime
`TypeError` of `response.content[0].type`; a failing fallback `JSON.parse`
propagates its `SyntaxError`. -/
def generatePresentation (claude : ClaudeOracle) (prompt : Str) : Except AppError Json :=
  match claude prompt with
  | .error m => .error (.plain m)
  | .ok blocks =>
    match blocks.head? with
    | none => .error (.plain (str "Cannot read properties of undefined"))
    | some .other => .error (.plain (str "Unexpected response type from Claude"))
    | some (.text t) =>
      match parseClaudeResponse t with
      | .ok j => .ok j
      | .error .malformed =>
        .error (.plain (str "Failed to generate properly formatted presentation content"))
      | .error .syntaxErr => .error (.plain (str "Unexpected token in JSON"))

/-- An HTTP-level outcome: a 200 payload (run of show plus metadata), or an
error body with its status. -/
inductive ApiResult where
  | ok (runOfShow : Json) (repoName language : Str) (stars : Nat)
      (generatedAt : Str) (config : PresentationConfig)
  | err (status : Nat) (msg : Str)

/-- The primary `POST`: validate, analyze, assemble prompt, generate, and
map a thrown error to 400 iff it is a `ValidationError`, else 500. -/
def POST1 (body : Except Unit RawBody) (apiKeySet : Bool) (api : GithubApi)
    (claude : ClaudeOracle) (now : Str) : ApiResult :=
  let run : Except AppError (Json × RepoAnalysis × PresentationConfig) := do
    let (u, c) ← validateRequest body apiKeySet
    let analysis ← (analyzeRepository api (jsTrim u)).mapError .plain
    let prompt := generate analysis c
    let j ← generatePresentation claude prompt
    return (j, analysis, c)
  match run with
  | .ok (j, analysis, c) => .ok j analysis.name analysis.language analysis.stats.stars now c
  | .error (.validation m) => .err 400 m
  | .error (.plain m) => .err 500 m

/-- The duplicate variant's `POST`: inline validation without the URL regex,
analysis errors answered with 400 and the thrown message, generation and
parsing failures with 500; errors reaching the outer catch are masked
outside development mode. -/
def POST2 (body : Except Unit RawBody) (apiKeySet : Bool) (api : GithubApi)
    (claude : ClaudeOracle) (now : Str) (isDev : Bool) : ApiResult :=
  let outerCatch : Str → ApiResult := fun m =>
    .err 500 (if isDev then m
      else str "An unexpected error occurred while generating the presentation")
  match body with
  | .error _ => outerCatch (str "Invalid JSON in request body")
  | .ok b =>
    match b.repoUrl with
    | some (.jstr u) =>
      if u.isEmpty then
        .err 400 (str "Repository URL is required and must be a string")
      else
        match b.config with
        | some (.cobj c) =>
          if apiKeySet then
            match analyzeRepositoryV2 api (jsTrim u) with
            | .error m => .err 400 m
            | .ok analysis =>
              let prompt := generatePromptV2 analysis c
              match claude prompt with
              | .error _ =>
                .err 500 (str "Failed to generate presentation content. Please try again.")
              | .ok blocks =>
                match blocks.head? with
                | none => outerCatch (str "Cannot read properties of undefined")
                | some .other => outerCatch (str "Unexpected response type from Claude")
                | some (.text t) =>
                  let fallback : ApiResult :=
                    match braceSpan t with
                    | some m =>
                      match jsonParse m with
                      | some r =>
                        .ok r analysis.name analysis.language analysis.stats.stars now c
                      | none =>
                        .err 500 (str "Failed to generate properly formatted presentation content. Please try again.")
                    | none =>
                      .err 500 (str "Failed to generate structured presentation content. Please try again.")
                  match jsonParse (cleanedText t) with
                  | some parsed =>
                    if shapeOk parsed then
                      .ok parsed analysis.name analysis.language analysis.stats.stars now c
                    else fallback
                  | none => fallback
          else .err 500 (str "Server configuration error. Please check API key setup.")
        | _ => .err 400 (str "Presentation configuration is required")
    | _ => .err 400 (str "Repository URL is required and must be a string")

/-!
## Shared sample data and basic lemmas
-/

def sampleConfig : PresentationConfig :=
  { audience := str "conference", timeConstraint := str "15min",
    includeQA := true, includeLiveDemo := false }

def sampleAnalysis : RepoAnalysis :=
  { name := str "demo", description := str "a demo", language := str "TypeScript",
    topics := [str "cli"], readme := str "hello", packageJson := none,
    fileStructure := [str "file: main.ts"], keyFiles := [],
    stats := { stars := 5, forks := 2, size := 100 } }

theorem substrOf_here (a u v : Str) : substrOf a (u ++ a ++ v) := ⟨u, v, rfl⟩

theorem substrOf_append_left (a b x : Str) (h : substrOf a b) : substrOf a (x ++ b) := by
  obtain ⟨u, v, rfl⟩ := h
  exact ⟨x ++ u, v, by simp⟩

theorem substrOf_append_right (a b x : Str) (h : substrOf a b) : substrOf a (b ++ x) := by
  obtain ⟨u, v, rfl⟩ := h
  exact ⟨u, v ++ x, by simp⟩

theorem structLoop_fst_length (api : GithubApi) (ftype : Str → Str) (l : List Entry) :
    (structLoop api ftype l).1.length = l.length := by
  induction l with
  | nil => rfl
  | cons item rest ih =>
    simp only [structLoop]
    split
    · split <;> simp [ih]
    · simp [ih]

theorem structLoop_content_bound (api : GithubApi) (ftype : Str → Str) (l : List Entry) :
    ∀ kf ∈ (structLoop api ftype l).2, kf.content.length ≤ 3000 := by
  induction l with
  | nil => simp [structLoop]
  | cons item rest ih =>
    intro kf hkf
    simp only [structLoop] at hkf
    revert hkf
    split
    · split
      · intro hkf
        rcases List.mem_cons.mp hkf with h | h
        · subst h
          simp [List.length_take_le]
        · exact ih kf h
      · exact fun hkf => ih kf hkf
    · exact fun hkf => ih kf hkf

/-- C6: every analysis produced by the content fetcher satisfies the
truncation bounds. -/
theorem analyzeRepository_bounds (api : GithubApi) (url : Str) (analysis : RepoAnalysis)
    (h : analyzeRepository api url = .ok analysis) :
    analysis.readme.length ≤ 5000 ∧
      (∀ kf ∈ analysis.keyFiles, kf.content.length ≤ 3000) ∧
      analysis.fileStructure.length ≤ 30 := by
  unfold analyzeRepository at h
  simp only [Bind.bind, Functor.map] at h
  rcases hu : parseRepoUrl url with m | pr
  · rw [hu] at h
    simp only [Except.bind] at h
    exact Except.noConfusion h
  rw [hu] at h
  simp only [Except.bind] at h
  rcases hr : fetchRepositoryData api with m | d
  · rw [hr] at h
    simp only [Except.bind] at h
    exact Except.noConfusion h
  rw [hr] at h
  simp only [Except.bind] at h
  rcases hs : analyzeFileStructure api getFileType with m | pair
  · rw [hs] at h
    simp only [Except.map] at h
    exact Except.noConfusion h
  rw [hs] at h
  simp only [Except.map, pure, Except.pure, Except.ok.injEq] at h
  obtain ⟨fileStructure, keyFiles⟩ := pair
  simp only [pure, Except.pure, Except.ok.injEq] at h
  subst h
  refine ⟨by simp [List.length_take_le], ?_, ?_⟩
  · unfold analyzeFileStructure at hs
    rcases hroot : api.root with m | _ | contents <;> rw [hroot] at hs <;>
      simp only [Except.ok.injEq] at hs
    · cases hs
    · have hk : keyFiles = ([] : List KeyFile) := (congrArg Prod.snd hs).symm
      subst hk
      simp
    · have hk : keyFiles = (structLoop api getFileType
          ((sortBy entryLe contents).take 30)).2 := (congrArg Prod.snd hs).symm
      subst hk
      exact structLoop_content_bound api getFileType _
  · unfold analyzeFileStructure at hs
    rcases hroot : api.root with m | _ | contents <;> rw [hroot] at hs <;>
      simp only [Except.ok.injEq] at hs
    · cases hs
    · have hf : fileStructure = ([] : List Str) := (congrArg Prod.fst hs).symm
      subst hf
      simp
    · have hf : fileStructure = (structLoop api getFileType
          ((sortBy entryLe contents).take 30)).1 := (congrArg Prod.fst hs).symm
      subst hf
      rw [structLoop_fst_length]
      simp [List.length_take_le]

/-- C6 witness repository metadata. -/
def witnessRepoData : RepoData where
  name := str "demo"
  description := some (str "a demo")
  language := some (str "TypeScript")
  topics := some [str "cli"]
  stargazers_count := 5
  forks_count := 2
  size := 100

/-- C6 witness oracle: a one-file repository. -/
def witnessApi : GithubApi where
  repo := .ok witnessRepoData
  getContent := fun p => if p = str "README.md" then .content (str "hello") else .err
  root := .entries [{ name := str "main.ts", type := str "file", size := 10 }]

/-- The analysis the witness oracle produces. -/
def witnessAnalysis : RepoAnalysis :=
  (analyzeRepository witnessApi (str "https://github.com/a/b")).toOption.getD sampleAnalysis

theorem analyzeRepository_bounds_witness :
    analyzeRepository witnessApi (str "https://github.com/a/b") = .ok witnessAnalysis ∧
      witnessAnalysis.readme.length ≤ 5000 ∧
      (∀ kf ∈ witnessAnalysis.keyFiles, kf.content.length ≤ 3000) ∧
      witnessAnalysis.fileStructure.length ≤ 30 :=
  ⟨rfl, analyzeRepository_bounds witnessApi (str "https://github.com/a/b") witnessAnalysis rfl⟩

/-- C9: the prompt assembler is a pure function of the analysis and the
configuration — two invocations on equal inputs give byte-identical output. -/
theorem generate_deterministic (a1 a2 : RepoAnalysis) (c1 c2 : PresentationConfig)
    (ha : a1 = a2) (hc : c1 = c2) : generate a1 c1 = generate a2 c2 := by
  rw [ha, hc]

theorem generate_deterministic_witness :
    sampleAnalysis = sampleAnalysis ∧ sampleConfig = sampleConfig ∧
      generate sampleAnalysis sampleConfig = generate sampleAnalysis sampleConfig :=
  ⟨rfl, rfl, generate_deterministic sampleAnalysis sampleAnalysis sampleConfig sampleConfig rfl rfl⟩

/-- C1 (amended): an artifact accepted by the response normalizer either
passed the stage-1 shape check (truthy `title` and `overview`, `sections` an
array — possibly empty), or was produced by the stage-2 brace-extraction
fallback, which performs no shape validation. -/
theorem parseClaudeResponse_shape (text : Str) (j : Json)
    (h : parseClaudeResponse text = .ok j) :
    shapeOk j = true ∨ (∃ m, braceSpan text = some m ∧ jsonParse m = some j) := by
  unfold parseClaudeResponse at h
  rcases hc : jsonParse (cleanedText text) with _ | p <;> simp only [hc] at h
  · rcases hb : braceSpan text with _ | m <;> simp only [hb] at h
    · exact Except.noConfusion h
    · rcases hm : jsonParse m with _ | r <;> simp only [hm] at h
      · exact Except.noConfusion h
      · exact Or.inr ⟨m, rfl, by rw [hm, Except.ok.inj h]⟩
  · by_cases hs : shapeOk p = true
    · rw [if_pos hs] at h
      exact Or.inl (Except.ok.inj h ▸ hs)
    · rw [if_neg hs] at h
      rcases hb : braceSpan text with _ | m <;> simp only [hb] at h
      · exact Except.noConfusion h
      · rcases hm : jsonParse m with _ | r <;> simp only [hm] at h
        · exact Except.noConfusion h
        · exact Or.inr ⟨m, rfl, by rw [hm, Except.ok.inj h]⟩

def c1text : Str := str "\x7b\"title\":\"T\",\"overview\":\"O\",\"sections\":[\"s\"]\x7d"

def c1json : Json :=
  Json.obj [(str "title", Json.str (str "T")), (str "overview", Json.str (str "O")),
    (str "sections", Json.arr [Json.str (str "s")])]

theorem parseClaudeResponse_shape_witness :
    parseClaudeResponse c1text = .ok c1json ∧
      (shapeOk c1json = true ∨
        ∃ m, braceSpan c1text = some m ∧ jsonParse m = some c1json) :=
  ⟨rfl, parseClaudeResponse_shape c1text c1json rfl⟩

def c1emptyText : Str := str "\x7b\"title\":\"T\",\"overview\":\"O\",\"sections\":[]\x7d"

def c1emptyJson : Json :=
  Json.obj [(str "title", Json.str (str "T")), (str "overview", Json.str (str "O")),
    (str "sections", Json.arr [])]

/-- C1 counterexample: the normalizer accepts a response whose `sections` is
the empty array (stage 1 only checks `Array.isArray`). -/
theorem parseClaudeResponse_accepts_empty_sections :
    parseClaudeResponse c1emptyText = .ok c1emptyJson ∧
      jlookup c1emptyJson (str "sections") = some (Json.arr []) :=
  ⟨rfl, rfl⟩

def repoNotFoundMsg : Str :=
  str "Repository not found. Please check that the repository exists and is public."

/-- C2 (amended): for a request that reaches the metadata fetch and finds the
repository missing, the duplicate variant answers 400 with the message
beginning "Repository not found", but the primary variant answers 500 for the
same condition, because its catch-all maps only `ValidationError` to 400. -/
theorem notFound_status (b : RawBody) (u : Str) (c : PresentationConfig) (api : GithubApi)
    (claude : ClaudeOracle) (now : Str) (isDev : Bool)
    (hurl : b.repoUrl = some (.jstr u)) (hne : u.isEmpty = false)
    (hre : routeUrlOk u = true) (hcfg : b.config = some (.cobj c))
    (hparse : ∃ pr, parseRepoUrl (jsTrim u) = Except.ok pr)
    (hnf : api.repo = .notFound) :
    POST2 (.ok b) true api claude now isDev = .err 400 repoNotFoundMsg ∧
      POST1 (.ok b) true api claude now = .err 500 repoNotFoundMsg ∧
      startsWith (str "Repository not found") repoNotFoundMsg = true := by
  obtain ⟨pr, hpr⟩ := hparse
  have hfetch : fetchRepositoryData api = .error repoNotFoundMsg := by
    unfold fetchRepositoryData
    rw [hnf]
    rfl
  have hana : analyzeRepository api (jsTrim u) = .error repoNotFoundMsg := by
    unfold analyzeRepository
    simp only [Bind.bind, Functor.map, hpr, Except.bind, hfetch]
  have hana2 : analyzeRepositoryV2 api (jsTrim u) = .error repoNotFoundMsg := by
    unfold analyzeRepositoryV2
    simp only [Bind.bind, Functor.map, hpr, Except.bind, hfetch]
  have hval : validateRequest (.ok b) true = .ok (u, c) := by
    simp only [validateRequest, hurl, hne, hre, hcfg]
    simp
  refine ⟨?_, ?_, by decide⟩
  · simp only [POST2, hurl, hne, hcfg, hana2]
    simp
  · simp only [POST1, Bind.bind, hval, Except.bind, hana, Except.mapError]

def c2Body : RawBody :=
  { repoUrl := some (.jstr (str "https://github.com/a/b")),
    config := some (.cobj sampleConfig) }

def c2Api : GithubApi where
  repo := .notFound
  getContent := fun _ => .err
  root := .single

def c2Claude : ClaudeOracle := fun _ => .error (str "unused")

theorem notFound_status_witness :
    routeUrlOk (str "https://github.com/a/b") = true ∧
      POST2 (.ok c2Body) true c2Api c2Claude (str "t") true = .err 400 repoNotFoundMsg ∧
      POST1 (.ok c2Body) true c2Api c2Claude (str "t") = .err 500 repoNotFoundMsg :=
  ⟨by decide,
    (notFound_status c2Body (str "https://github.com/a/b") sampleConfig c2Api c2Claude
      (str "t") true rfl rfl (by decide) rfl ⟨(str "a", str "b"), rfl⟩ rfl).1,
    (notFound_status c2Body (str "https://github.com/a/b") sampleConfig c2Api c2Claude
      (str "t") true rfl rfl (by decide) rfl ⟨(str "a", str "b"), rfl⟩ rfl).2.1⟩

/-- C2 counterexample: on a not-found repository the primary orchestrator
answers status 500, not 400 (its catch-all maps only `ValidationError`
to 400). -/
theorem notFound_primary_500 :
    POST1 (.ok c2Body) true c2Api c2Claude (str "t") = .err 500 repoNotFoundMsg := rfl

theorem substrOf_suffix (a u : Str) : substrOf a (u ++ a) := ⟨u, [], by simp⟩

def audienceValues : List Str :=
  [str "conference", str "internal", str "client", str "interview", str "workshop"]

def timeValues : List Str :=
  [str "5min", str "15min", str "30min", str "1hour"]

theorem AUDIENCE_CONTEXT_total (a : Str) (h : a ∈ audienceValues) :
    ∃ s, AUDIENCE_CONTEXT a = some s := by
  simp only [audienceValues, List.mem_cons, List.not_mem_nil, or_false] at h
  rcases h with rfl | rfl | rfl | rfl | rfl <;> exact ⟨_, rfl⟩

theorem TIME_GUIDANCE_total (t : Str) (h : t ∈ timeValues) :
    ∃ s, TIME_GUIDANCE t = some s := by
  simp only [timeValues, List.mem_cons, List.not_mem_nil, or_false] at h
  rcases h with rfl | rfl | rfl | rfl <;> exact ⟨_, rfl⟩

theorem FOCUS_AREAS_total (a : Str) (h : a ∈ audienceValues) :
    ∃ s, FOCUS_AREAS a = some s := by
  simp only [audienceValues, List.mem_cons, List.not_mem_nil, or_false] at h
  rcases h with rfl | rfl | rfl | rfl | rfl <;> exact ⟨_, rfl⟩

/-- One unfolding of the six joined prompt blocks. -/
theorem generate_unfold (analysis : RepoAnalysis) (config : PresentationConfig) :
    generate analysis config =
      (buildSystemPrompt config ++ str "\n\n") ++
        ((buildRepoAnalysisSection analysis ++ str "\n\n") ++
          ((buildRequirementsSection config ++ str "\n\n") ++
            ((buildStorytellingSection ++ str "\n\n") ++
              ((buildInstructionsSection config ++ str "\n\n") ++
                buildOutputFormatSection config)))) := rfl

theorem substr_of_sysPrompt (analysis : RepoAnalysis) (config : PresentationConfig)
    (a : Str) (h : substrOf a (buildSystemPrompt config)) :
    substrOf a (generate analysis config) := by
  rw [generate_unfold]
  exact substrOf_append_right _ _ _ (substrOf_append_right _ _ _ h)

theorem substr_of_requirements (analysis : RepoAnalysis) (config : PresentationConfig)
    (a : Str) (h : substrOf a (buildRequirementsSection config)) :
    substrOf a (generate analysis config) := by
  rw [generate_unfold]
  apply substrOf_append_left
  apply substrOf_append_left
  apply substrOf_append_right
  exact substrOf_append_right _ _ _ h

theorem substr_audience_sentence (config : PresentationConfig) (sa : Str)
    (h : AUDIENCE_CONTEXT config.audience = some sa) :
    substrOf sa (buildSystemPrompt config) := by
  unfold buildSystemPrompt
  rw [h]
  exact substrOf_append_right _ _ _ (substrOf_suffix sa _)

theorem substr_time_sentence (config : PresentationConfig) (st : Str)
    (h : TIME_GUIDANCE config.timeConstraint = some st) :
    substrOf st (buildRequirementsSection config) := by
  unfold buildRequirementsSection
  rw [h]
  apply substrOf_append_right
  apply substrOf_append_right
  apply substrOf_append_right
  apply substrOf_append_right
  apply substrOf_append_right
  apply substrOf_append_right
  exact substrOf_suffix st _

theorem substr_focus_sentence (config : PresentationConfig) (sf : Str)
    (h : FOCUS_AREAS config.audience = some sf) :
    substrOf sf (buildRequirementsSection config) := by
  unfold buildRequirementsSection
  rw [h]
  apply substrOf_append_right
  apply substrOf_append_right
  apply substrOf_append_right
  apply substrOf_append_right
  exact substrOf_suffix sf _

/-- C5: for every audience value and every time-constraint value of the
enumerations, the three lookup tables have entries, and the assembled prompt
is non-empty and contains each entry verbatim (for every analysis and both
boolean options). -/
theorem prompt_contains_table_sentences (a t : Str) (qa demo : Bool)
    (analysis : RepoAnalysis) (ha : a ∈ audienceValues) (ht : t ∈ timeValues) :
    ∃ sa st sf, AUDIENCE_CONTEXT a = some sa ∧ TIME_GUIDANCE t = some st ∧
      FOCUS_AREAS a = some sf ∧
      (generate analysis ⟨a, t, qa, demo⟩).length ≠ 0 ∧
      substrOf sa (generate analysis ⟨a, t, qa, demo⟩) ∧
      substrOf st (generate analysis ⟨a, t, qa, demo⟩) ∧
      substrOf sf (generate analysis ⟨a, t, qa, demo⟩) := by
  obtain ⟨sa, hsa⟩ := AUDIENCE_CONTEXT_total a ha
  obtain ⟨st, hst⟩ := TIME_GUIDANCE_total t ht
  obtain ⟨sf, hsf⟩ := FOCUS_AREAS_total a ha
  refine ⟨sa, st, sf, hsa, hst, hsf, ?_, ?_, ?_, ?_⟩
  · rw [generate_unfold]
    have h2 : (str "\n\n").length = 2 := rfl
    simp only [List.length_append]
    omega
  · exact substr_of_sysPrompt analysis _ sa (substr_audience_sentence _ sa hsa)
  · exact substr_of_requirements analysis _ st (substr_time_sentence _ st hst)
  · exact substr_of_requirements analysis _ sf (substr_focus_sentence _ sf hsf)

theorem prompt_contains_table_sentences_witness :
    (str "workshop") ∈ audienceValues ∧ (str "1hour") ∈ timeValues ∧
      (∃ sa st sf,
        AUDIENCE_CONTEXT (str "workshop") = some sa ∧
        TIME_GUIDANCE (str "1hour") = some st ∧
        FOCUS_AREAS (str "workshop") = some sf ∧
        (generate sampleAnalysis ⟨str "workshop", str "1hour", false, true⟩).length ≠ 0 ∧
        substrOf sa (generate sampleAnalysis ⟨str "workshop", str "1hour", false, true⟩) ∧
        substrOf st (generate sampleAnalysis ⟨str "workshop", str "1hour", false, true⟩) ∧
        substrOf sf (generate sampleAnalysis ⟨str "workshop", str "1hour", false, true⟩)) :=
  ⟨by decide, by decide,
    prompt_contains_table_sentences (str "workshop") (str "1hour") false true
      sampleAnalysis (by decide) (by decide)⟩

/-- C5 counterexample: the duplicate variant's lookup tables are not total
over the enumerations — `workshop` and `1hour` have no entries. -/
theorem duplicate_tables_not_total :
    audienceContextV2 (str "workshop") = none ∧ timeGuidanceV2 (str "1hour") = none ∧
      (str "workshop") ∈ audienceValues ∧ (str "1hour") ∈ timeValues :=
  ⟨rfl, rfl, by decide, by decide⟩

theorem AUDIENCE_CONTEXT_none (a : Str) (h : a ∉ audienceValues) :
    AUDIENCE_CONTEXT a = none := by
  simp only [audienceValues, List.mem_cons, List.not_mem_nil, or_false, not_or] at h
  obtain ⟨h1, h2, h3, h4, h5⟩ := h
  simp [AUDIENCE_CONTEXT, h1, h2, h3, h4, h5]

theorem FOCUS_AREAS_none (a : Str) (h : a ∉ audienceValues) :
    FOCUS_AREAS a = none := by
  simp only [audienceValues, List.mem_cons, List.not_mem_nil, or_false, not_or] at h
  obtain ⟨h1, h2, h3, h4, h5⟩ := h
  simp [FOCUS_AREAS, h1, h2, h3, h4, h5]

set_option maxRecDepth 8192 in
/-- C10: the orchestrator's validation accepts any object as the
configuration (no enumeration check), and for an out-of-enumeration audience
the pipeline still assembles a prompt, whose audience-context and focus-areas
slots render as the literal text `undefined`. -/
theorem outOfEnum_audience_undefined (aud t : Str) (qa demo : Bool)
    (analysis : RepoAnalysis) (u : Str)
    (hnot : aud ∉ audienceValues) (hu : routeUrlOk u = true) (hne : u.isEmpty = false) :
    validateRequest
        (.ok { repoUrl := some (.jstr u), config := some (.cobj ⟨aud, t, qa, demo⟩) })
        true = .ok (u, ⟨aud, t, qa, demo⟩) ∧
      AUDIENCE_CONTEXT aud = none ∧ FOCUS_AREAS aud = none ∧
      substrOf (str "presenting this GitHub repository to undefined.")
        (generate analysis ⟨aud, t, qa, demo⟩) ∧
      substrOf (str "\n- Focus Areas: undefined")
        (generate analysis ⟨aud, t, qa, demo⟩) := by
  have hnone1 := AUDIENCE_CONTEXT_none aud hnot
  have hnone2 := FOCUS_AREAS_none aud hnot
  refine ⟨by simp [validateRequest, hne, hu], hnone1, hnone2, ?_, ?_⟩
  · apply substr_of_sysPrompt
    have sysEq : buildSystemPrompt ⟨aud, t, qa, demo⟩ =
        str "You are an expert presentation coach specializing in technical demos and developer advocacy. Create a compelling, well-structured run-of-show for presenting this GitHub repository to undefined." := by
      unfold buildSystemPrompt
      rw [hnone1]
      rfl
    rw [sysEq]
    exact ⟨str "You are an expert presentation coach specializing in technical demos and developer advocacy. Create a compelling, well-structured run-of-show for ",
      [], by decide⟩
  · apply substr_of_requirements
    unfold buildRequirementsSection
    rw [hnone2]
    apply substrOf_append_right
    apply substrOf_append_right
    apply substrOf_append_right
    apply substrOf_append_right
    refine ⟨str "PRESENTATION REQUIREMENTS:\n- Target Duration: " ++ t ++
      str "\n- Time Guidance: " ++ renderLookup (TIME_GUIDANCE t), [], ?_⟩
    rw [List.append_nil, List.append_assoc]
    rw [show (str "\n- Focus Areas: ") ++ renderLookup none =
      str "\n- Focus Areas: undefined" from by decide]

theorem outOfEnum_audience_undefined_witness :
    (str "banana") ∉ audienceValues ∧
      (validateRequest
          (.ok ⟨some (.jstr (str "https://github.com/a/b")),
            some (.cobj ⟨str "banana", str "15min", false, false⟩)⟩)
          true = .ok (str "https://github.com/a/b", ⟨str "banana", str "15min", false, false⟩) ∧
        AUDIENCE_CONTEXT (str "banana") = none ∧ FOCUS_AREAS (str "banana") = none ∧
        substrOf (str "presenting this GitHub repository to undefined.")
          (generate sampleAnalysis ⟨str "banana", str "15min", false, false⟩) ∧
        substrOf (str "\n- Focus Areas: undefined")
          (generate sampleAnalysis ⟨str "banana", str "15min", false, false⟩)) :=
  ⟨by decide,
    outOfEnum_audience_undefined (str "banana") (str "15min") false false sampleAnalysis
      (str "https://github.com/a/b") (by decide) (by decide) (by decide)⟩

/-!
## Sorting facts (C8)
-/

theorem mem_insertSorted (le : α → α → Bool) (x : α) (l : List α) (a : α) :
    a ∈ insertSorted le x l ↔ a = x ∨ a ∈ l := by
  induction l with
  | nil => simp [insertSorted]
  | cons y ys ih =>
    simp only [insertSorted]
    split
    · simp [List.mem_cons]
    · simp only [List.mem_cons, ih]
      tauto

theorem length_insertSorted (le : α → α → Bool) (x : α) (l : List α) :
    (insertSorted le x l).length = l.length + 1 := by
  induction l with
  | nil => rfl
  | cons y ys ih =>
    simp only [insertSorted]
    split
    · simp
    · simp [ih]

theorem length_sortBy (le : α → α → Bool) (l : List α) :
    (sortBy le l).length = l.length := by
  induction l with
  | nil => rfl
  | cons x xs ih => simp [sortBy, length_insertSorted, ih]

theorem mem_sortBy (le : α → α → Bool) (l : List α) (a : α) :
    a ∈ sortBy le l ↔ a ∈ l := by
  induction l with
  | nil => simp [sortBy]
  | cons x xs ih => simp [sortBy, mem_insertSorted, ih]

theorem pairwise_insertSorted (le : α → α → Bool) (P : α → Prop) (x : α) (l : List α)
    (hPx : P x) (hPl : ∀ a ∈ l, P a)
    (htot : ∀ a b, P a → P b → le a b = true ∨ le b a = true)
    (htrans : ∀ a b c, P a → P b → P c → le a b = true → le b c = true → le a c = true)
    (hl : l.Pairwise (fun a b => le a b = true)) :
    (insertSorted le x l).Pairwise (fun a b => le a b = true) := by
  induction l with
  | nil => simp [insertSorted]
  | cons y ys ih =>
    have hPy : P y := hPl y (by simp)
    have hPys : ∀ a ∈ ys, P a := fun a ha => hPl a (by simp [ha])
    rcases List.pairwise_cons.mp hl with ⟨hyys, hys⟩
    simp only [insertSorted]
    split
    · rename_i hxy
      refine List.pairwise_cons.mpr ⟨?_, hl⟩
      intro b hb
      rcases List.mem_cons.mp hb with rfl | hb
      · exact hxy
      · exact htrans x y b hPx hPy (hPys b hb) hxy (hyys b hb)
    · rename_i hxy
      have hyx : le y x = true := by
        rcases htot x y hPx hPy with h | h
        · exact absurd h hxy
        · exact h
      refine List.pairwise_cons.mpr ⟨?_, ih hPys hys⟩
      intro b hb
      rcases (mem_insertSorted le x ys b).mp hb with rfl | hb
      · exact hyx
      · exact hyys b hb

theorem pairwise_sortBy (le : α → α → Bool) (P : α → Prop) (l : List α)
    (hPl : ∀ a ∈ l, P a)
    (htot : ∀ a b, P a → P b → le a b = true ∨ le b a = true)
    (htrans : ∀ a b c, P a → P b → P c → le a b = true → le b c = true → le a c = true) :
    (sortBy le l).Pairwise (fun a b => le a b = true) := by
  induction l with
  | nil => simp [sortBy]
  | cons x xs ih =>
    have hPx : P x := hPl x (by simp)
    have hPxs : ∀ a ∈ xs, P a := fun a ha => hPl a (by simp [ha])
    exact pairwise_insertSorted le P x (sortBy le xs) hPx
      (fun a ha => hPxs a ((mem_sortBy le xs a).mp ha)) htot htrans (ih hPxs)

theorem lexLe_total (s t : Str) : lexLe s t = true ∨ lexLe t s = true := by
  induction s generalizing t with
  | nil => left; rfl
  | cons a xs ih =>
    cases t with
    | nil => right; rfl
    | cons b ys =>
      rcases lt_trichotomy a b with h | h | h
      · left
        simp [lexLe, h]
      · subst h
        rcases ih ys with h2 | h2
        · left
          simp [lexLe, lt_irrefl, h2]
        · right
          simp [lexLe, lt_irrefl, h2]
      · right
        simp [lexLe, h]

theorem lexLe_trans (s t u : Str) (h1 : lexLe s t = true) (h2 : lexLe t u = true) :
    lexLe s u = true := by
  induction s generalizing t u with
  | nil => rfl
  | cons a xs ih =>
    cases t with
    | nil => exact absurd h1 (by simp [lexLe])
    | cons b ys =>
      cases u with
      | nil => exact absurd h2 (by simp [lexLe])
      | cons c zs =>
        simp only [lexLe] at h1 h2 ⊢
        rcases lt_trichotomy a b with hab | hab | hab
        · rcases lt_trichotomy b c with hbc | hbc | hbc
          · simp [lt_trans hab hbc]
          · subst hbc
            simp [hab]
          · rw [if_neg (asymm hbc), if_pos hbc] at h2
            exact absurd h2 (by simp)
        · subst hab
          rw [if_neg (lt_irrefl a), if_neg (lt_irrefl a)] at h1
          rcases lt_trichotomy a c with hac | hac | hac
          · simp [hac]
          · subst hac
            rw [if_neg (lt_irrefl a), if_neg (lt_irrefl a)] at h2
            simp [lt_irrefl, ih ys zs h1 h2]
          · rw [if_neg (asymm hac), if_pos hac] at h2
            exact absurd h2 (by simp)
        · rw [if_neg (asymm hab), if_pos hab] at h1
          exact absurd h1 (by simp)

/-- Well-typed root entries: the GitHub content types the scenario concerns. -/
def wellTyped (e : Entry) : Prop := e.type = str "dir" ∨ e.type = str "file"

theorem entryLe_total (a b : Entry) (ha : wellTyped a) (hb : wellTyped b) :
    entryLe a b = true ∨ entryLe b a = true := by
  unfold entryLe
  by_cases hty : a.type = b.type
  · rw [if_pos hty, if_pos hty.symm]
    exact lexLe_total a.name b.name
  · rw [if_neg hty, if_neg (Ne.symm hty)]
    rcases ha with ha | ha
    · left
      simp [ha]
    · rcases hb with hb | hb
      · right
        simp [hb]
      · exact absurd (ha.trans hb.symm) hty

theorem entryLe_trans (a b c : Entry) (_ : wellTyped a) (hb : wellTyped b)
    (_ : wellTyped c) (h1 : entryLe a b = true) (h2 : entryLe b c = true) :
    entryLe a c = true := by
  unfold entryLe at h1 h2 ⊢
  by_cases hab : a.type = b.type
  · rw [if_pos hab] at h1
    by_cases hbc : b.type = c.type
    · rw [if_pos hbc] at h2
      rw [if_pos (hab.trans hbc)]
      exact lexLe_trans _ _ _ h1 h2
    · rw [if_neg hbc] at h2
      have hbdir : b.type = str "dir" := by simpa using h2
      rw [if_neg (fun h => hbc (hab.symm.trans h))]
      simp [hab.trans hbdir]
  · rw [if_neg hab] at h1
    have hadir : a.type = str "dir" := by simpa using h1
    have hbfile : b.type = str "file" := by
      rcases hb with h | h
      · exact absurd (hadir.trans h.symm) hab
      · exact h
    by_cases hac : a.type = c.type
    · -- then c is a directory while b is a file before it: h2 is impossible
      have hcdir : c.type = str "dir" := hac ▸ hadir
      have hbc : b.type ≠ c.type := by
        rw [hbfile, hcdir]
        decide
      rw [if_neg hbc] at h2
      have : b.type = str "dir" := by simpa using h2
      rw [hbfile] at this
      exact absurd this (by decide)
    · rw [if_neg hac]
      simp [hadir]

theorem structLoop_fst (api : GithubApi) (ftype : Str → Str) (l : List Entry) :
    (structLoop api ftype l).1 = l.map renderEntryLine := by
  induction l with
  | nil => rfl
  | cons item rest ih =>
    simp only [structLoop]
    split
    · split <;> simp [ih]
    · simp [ih]

/-- Directory test used to split the sorted listing. -/
def isDirEntry (e : Entry) : Bool := e.type = str "dir"

/-- C8: the fetcher sorts directories before files, then by name, keeps the
first 30 entries, and renders one structure line per kept entry: the kept
entries split into a directory block followed by a name-sorted file block. -/
theorem fileStructure_sorted (api : GithubApi) (ftype : Str → Str)
    (contents : List Entry) (hroot : api.root = .entries contents)
    (hw : ∀ e ∈ contents, wellTyped e) :
    ∃ ds fs kfs,
      (sortBy entryLe contents).take 30 = ds ++ fs ∧
      (∀ e ∈ ds, e.type = str "dir") ∧
      (∀ e ∈ fs, e.type = str "file") ∧
      fs.Pairwise (fun a b : Entry => lexLe a.name b.name = true) ∧
      analyzeFileStructure api ftype = .ok ((ds ++ fs).map renderEntryLine, kfs) ∧
      ((ds ++ fs).map renderEntryLine).length = min 30 contents.length := by
  have hsorted : (sortBy entryLe contents).Pairwise (fun a b => entryLe a b = true) :=
    pairwise_sortBy entryLe wellTyped contents hw entryLe_total entryLe_trans
  set s30 := (sortBy entryLe contents).take 30 with hs30
  have hmemw : ∀ e ∈ s30, wellTyped e := fun e he =>
    hw e ((mem_sortBy entryLe contents e).mp (List.mem_of_mem_take he))
  have htake : s30.Pairwise (fun a b => entryLe a b = true) :=
    hsorted.sublist (List.take_sublist 30 _)
  have hsuffix : (s30.dropWhile isDirEntry).Pairwise (fun a b => entryLe a b = true) :=
    htake.sublist (List.dropWhile_sublist isDirEntry)
  have hfsfile : ∀ e ∈ s30.dropWhile isDirEntry, e.type = str "file" := by
    intro e he
    have hesub : e ∈ s30 := (List.dropWhile_sublist isDirEntry).subset he
    rcases hmemw e hesub with hdir | hfile
    · exfalso
      rcases hdrop : s30.dropWhile isDirEntry with _ | ⟨q, qs⟩
      · rw [hdrop] at he
        exact absurd he (List.not_mem_nil e)
      · have hqn : isDirEntry q = false := by
          have hh := List.head?_dropWhile_not isDirEntry s30
          rw [hdrop] at hh
          simpa using hh
        have hq : q ∈ s30 := (List.dropWhile_sublist isDirEntry).subset (by simp [hdrop])
        have hqfile : q.type = str "file" := by
          rcases hmemw q hq with hh | hh
          · exact absurd hqn (by simp [isDirEntry, hh])
          · exact hh
        rw [hdrop] at he
        rcases List.mem_cons.mp he with rfl | he2
        · simp [isDirEntry, hdir] at hqn
        · rw [hdrop] at hsuffix
          have hqe : entryLe q e = true := (List.pairwise_cons.mp hsuffix).1 e he2
          unfold entryLe at hqe
          rw [if_neg (by rw [hqfile, hdir]; decide)] at hqe
          have : q.type = str "dir" := by simpa using hqe
          rw [hqfile] at this
          exact absurd this (by decide)
    · exact hfile
  refine ⟨s30.takeWhile isDirEntry, s30.dropWhile isDirEntry,
    (structLoop api ftype s30).2, (List.takeWhile_append_dropWhile isDirEntry s30).symm,
    ?_, hfsfile, ?_, ?_, ?_⟩
  · intro e he
    have := List.mem_takeWhile_imp he
    simpa [isDirEntry] using this
  · refine hsuffix.imp_of_mem ?_
    intro a b hamem hbmem hab
    have hafile : a.type = str "file" := hfsfile a hamem
    have hbfile : b.type = str "file" := hfsfile b hbmem
    unfold entryLe at hab
    rw [if_pos (hafile.trans hbfile.symm)] at hab
    exact hab
  · unfold analyzeFileStructure
    rw [hroot, List.takeWhile_append_dropWhile isDirEntry s30,
      ← structLoop_fst api ftype s30]
  · rw [List.takeWhile_append_dropWhile isDirEntry s30]
    rw [List.length_map, hs30, List.length_take, length_sortBy]

instance (e : Entry) : Decidable (wellTyped e) :=
  decidable_of_iff (e.type = str "dir" ∨ e.type = str "file") Iff.rfl

/-- C8 witness scenario: a root listing of 50 entries, 12 of which are
directories, in scrambled order. -/
def bigContents : List Entry := [
  ⟨str "file", str "f13", 1⟩,
  ⟨str "file", str "f24", 1⟩,
  ⟨str "file", str "f03", 1⟩,
  ⟨str "file", str "f20", 1⟩,
  ⟨str "dir", str "d11", 0⟩,
  ⟨str "file", str "f37", 1⟩,
  ⟨str "dir", str "d12", 0⟩,
  ⟨str "file", str "f05", 1⟩,
  ⟨str "file", str "f17", 1⟩,
  ⟨str "file", str "f18", 1⟩,
  ⟨str "file", str "f31", 1⟩,
  ⟨str "file", str "f27", 1⟩,
  ⟨str "file", str "f19", 1⟩,
  ⟨str "dir", str "d09", 0⟩,
  ⟨str "dir", str "d01", 0⟩,
  ⟨str "file", str "f35", 1⟩,
  ⟨str "file", str "f08", 1⟩,
  ⟨str "file", str "f01", 1⟩,
  ⟨str "file", str "f10", 1⟩,
  ⟨str "file", str "f32", 1⟩,
  ⟨str "file", str "f36", 1⟩,
  ⟨str "file", str "f11", 1⟩,
  ⟨str "file", str "f38", 1⟩,
  ⟨str "dir", str "d08", 0⟩,
  ⟨str "file", str "f28", 1⟩,
  ⟨str "file", str "f07", 1⟩,
  ⟨str "file", str "f22", 1⟩,
  ⟨str "dir", str "d02", 0⟩,
  ⟨str "file", str "f29", 1⟩,
  ⟨str "file", str "f06", 1⟩,
  ⟨str "file", str "f25", 1⟩,
  ⟨str "file", str "f04", 1⟩,
  ⟨str "file", str "f33", 1⟩,
  ⟨str "file", str "f15", 1⟩,
  ⟨str "file", str "f16", 1⟩,
  ⟨str "dir", str "d06", 0⟩,
  ⟨str "dir", str "d03", 0⟩,
  ⟨str "file", str "f02", 1⟩,
  ⟨str "file", str "f21", 1⟩,
  ⟨str "file", str "f34", 1⟩,
  ⟨str "file", str "f26", 1⟩,
  ⟨str "file", str "f12", 1⟩,
  ⟨str "dir", str "d07", 0⟩,
  ⟨str "file", str "f23", 1⟩,
  ⟨str "dir", str "d05", 0⟩,
  ⟨str "dir", str "d04", 0⟩,
  ⟨str "file", str "f30", 1⟩,
  ⟨str "file", str "f14", 1⟩,
  ⟨str "dir", str "d10", 0⟩,
  ⟨str "file", str "f09", 1⟩]

def c8Api : GithubApi where
  repo := .notFound
  getContent := fun _ => .err
  root := .entries bigContents

theorem fileStructure_sorted_witness :
    (∀ e ∈ bigContents, wellTyped e) ∧
      bigContents.length = 50 ∧ (bigContents.filter isDirEntry).length = 12 ∧
      min 30 bigContents.length = 30 ∧
      (∃ ds fs kfs,
        (sortBy entryLe bigContents).take 30 = ds ++ fs ∧
        (∀ e ∈ ds, e.type = str "dir") ∧
        (∀ e ∈ fs, e.type = str "file") ∧
        fs.Pairwise (fun a b : Entry => lexLe a.name b.name = true) ∧
        analyzeFileStructure c8Api getFileType = .ok ((ds ++ fs).map renderEntryLine, kfs) ∧
        ((ds ++ fs).map renderEntryLine).length = min 30 bigContents.length) :=
  ⟨by decide, rfl, rfl, rfl,
    fileStructure_sorted c8Api getFileType bigContents rfl (by decide)⟩

/-!
## URL parser correctness (C3, C4)
-/

theorem startsWith_self_append (p r : Str) : startsWith p (p ++ r) = true := by
  induction p with
  | nil => rfl
  | cons c cs ih => simp [startsWith, ih]

theorem startsWith_ex (p s : Str) (h : startsWith p s = true) : ∃ r, s = p ++ r := by
  induction p generalizing s with
  | nil => exact ⟨s, rfl⟩
  | cons c cs ih =>
    cases s with
    | nil => exact absurd h (by simp [startsWith])
    | cons d ds =>
      simp only [startsWith, Bool.and_eq_true, beq_iff_eq] at h
      obtain ⟨rfl, h2⟩ := h
      obtain ⟨r, rfl⟩ := ih ds h2
      exact ⟨r, rfl⟩

theorem takeWhile_append_stop (p : α → Bool) (a : List α) (c : α) (b : List α)
    (ha : ∀ x ∈ a, p x = true) (hc : p c = false) :
    (a ++ c :: b).takeWhile p = a := by
  induction a with
  | nil => simp [List.takeWhile_cons, hc]
  | cons x xs ih =>
    have hx : p x = true := ha x (by simp)
    simp [List.takeWhile_cons, hx, ih (fun y hy => ha y (by simp [hy]))]

theorem dropWhile_append_stop (p : α → Bool) (a : List α) (c : α) (b : List α)
    (ha : ∀ x ∈ a, p x = true) (hc : p c = false) :
    (a ++ c :: b).dropWhile p = c :: b := by
  induction a with
  | nil => simp [List.dropWhile_cons, hc]
  | cons x xs ih =>
    have hx : p x = true := ha x (by simp)
    simp [List.dropWhile_cons, hx, ih (fun y hy => ha y (by simp [hy]))]

theorem takeWhile_all (p : α → Bool) (a : List α) (ha : ∀ x ∈ a, p x = true) :
    a.takeWhile p = a := by
  induction a with
  | nil => rfl
  | cons x xs ih =>
    have hx : p x = true := ha x (by simp)
    simp [List.takeWhile_cons, hx, ih (fun y hy => ha y (by simp [hy]))]

theorem tryUrlAt_ne (c : Char) (s : Str) (hc : c ≠ 'g') : tryUrlAt (c :: s) = none := by
  unfold tryUrlAt
  have hsw : startsWith (str "github.com/") (c :: s) = false := by
    show (('g' : Char) == c && startsWith (str "ithub.com/") s) = false
    have : (('g' : Char) == c) = false := by
      simp [beq_iff_eq]
      exact fun h => hc h.symm
    simp [this]
  rw [hsw]
  simp

theorem findUrlMatch_cons_ne (c : Char) (s : Str) (hc : c ≠ 'g') :
    findUrlMatch (c :: s) = findUrlMatch s := by
  show (match tryUrlAt (c :: s) with | some m => some m | none => findUrlMatch s) =
    findUrlMatch s
  rw [tryUrlAt_ne c s hc]

theorem urlTail_valid (tail : Str)
    (htail : tail = [] ∨ ∃ p, tail = '/' :: p ∧ ∀ c ∈ p, isLineTerm c = false) :
    urlTail tail = true := by
  rcases htail with rfl | ⟨p, rfl, hp⟩
  · rfl
  · have h2 : urlTail2 ('/' :: p) = true := by
      simp only [urlTail2, List.all_eq_true]
      intro c hc
      simp [hp c hc]
    simp [urlTail, h2]

theorem tryUrlAt_hit (owner repoSeg tail : Str)
    (ho1 : owner ≠ []) (ho2 : ∀ c ∈ owner, c ≠ '/')
    (hs1 : repoSeg ≠ []) (hs2 : ∀ c ∈ repoSeg, c ≠ '/')
    (htail : tail = [] ∨ ∃ p, tail = '/' :: p ∧ ∀ c ∈ p, isLineTerm c = false) :
    tryUrlAt (str "github.com/" ++ (owner ++ '/' :: (repoSeg ++ tail))) =
      some (owner, repoSeg) := by
  have hdec : ∀ (l : Str), (∀ c ∈ l, c ≠ '/') → ∀ x ∈ l, (decide (x ≠ '/')) = true :=
    fun l hl x hx => by simp [hl x hx]
  have hslash : (decide (('/' : Char) ≠ '/')) = false := by decide
  unfold tryUrlAt
  rw [startsWith_self_append]
  simp only [if_true]
  rw [show (11 : Nat) = (str "github.com/").length from rfl, List.drop_left]
  rw [takeWhile_append_stop _ owner '/' (repoSeg ++ tail) (hdec owner ho2) hslash]
  have hoe : owner.isEmpty = false := by
    cases owner with
    | nil => exact absurd rfl ho1
    | cons x xs => rfl
  rw [hoe]
  simp only [Bool.false_eq_true, if_false]
  rw [dropWhile_append_stop _ owner '/' (repoSeg ++ tail) (hdec owner ho2) hslash]
  show (match
      tryRepo ((repoSeg ++ tail).takeWhile (fun x => decide (x ≠ '/'))) (repoSeg ++ tail)
        ((repoSeg ++ tail).takeWhile (fun x => decide (x ≠ '/'))).length with
    | some repo => some (owner, repo)
    | none => none) = some (owner, repoSeg)
  have hseg : (repoSeg ++ tail).takeWhile (fun c => decide (c ≠ '/')) = repoSeg := by
    rcases htail with rfl | ⟨p, rfl, _⟩
    · rw [List.append_nil]
      exact takeWhile_all _ repoSeg (hdec repoSeg hs2)
    · exact takeWhile_append_stop _ repoSeg '/' p (hdec repoSeg hs2) hslash
  rw [hseg]
  obtain ⟨n, hn⟩ : ∃ n, repoSeg.length = n + 1 := by
    cases repoSeg with
    | nil => exact absurd rfl hs1
    | cons x xs => exact ⟨xs.length, rfl⟩
  rw [hn]
  unfold tryRepo
  rw [← hn, List.drop_left, urlTail_valid tail htail]
  simp only [if_true]
  rw [List.take_length]

theorem findUrlMatch_https (z : Str) :
    findUrlMatch (str "https://" ++ z) = findUrlMatch z := by
  show findUrlMatch ('h' :: (str "ttps://" ++ z)) = findUrlMatch z
  rw [findUrlMatch_cons_ne _ _ (by decide)]
  show findUrlMatch ('t' :: (str "tps://" ++ z)) = findUrlMatch z
  rw [findUrlMatch_cons_ne _ _ (by decide)]
  show findUrlMatch ('t' :: (str "ps://" ++ z)) = findUrlMatch z
  rw [findUrlMatch_cons_ne _ _ (by decide)]
  show findUrlMatch ('p' :: (str "s://" ++ z)) = findUrlMatch z
  rw [findUrlMatch_cons_ne _ _ (by decide)]
  show findUrlMatch ('s' :: (str "://" ++ z)) = findUrlMatch z
  rw [findUrlMatch_cons_ne _ _ (by decide)]
  show findUrlMatch (':' :: (str "//" ++ z)) = findUrlMatch z
  rw [findUrlMatch_cons_ne _ _ (by decide)]
  show findUrlMatch ('/' :: (str "/" ++ z)) = findUrlMatch z
  rw [findUrlMatch_cons_ne _ _ (by decide)]
  show findUrlMatch ('/' :: z) = findUrlMatch z
  rw [findUrlMatch_cons_ne _ _ (by decide)]

/-- Correct extraction on well-formed URLs: for any nonempty slash-free owner
and repo segment and an optional trailing path, the parser returns the owner
and the repo segment with one trailing `.git` stripped. -/
theorem parseRepoUrl_valid (owner repoSeg tail : Str)
    (ho1 : owner ≠ []) (ho2 : ∀ c ∈ owner, c ≠ '/')
    (hs1 : repoSeg ≠ []) (hs2 : ∀ c ∈ repoSeg, c ≠ '/')
    (htail : tail = [] ∨ ∃ p, tail = '/' :: p ∧ ∀ c ∈ p, isLineTerm c = false) :
    parseRepoUrl (str "https://github.com/" ++ owner ++ '/' :: (repoSeg ++ tail)) =
      .ok (owner, stripDotGit repoSeg) := by
  have hassoc : str "https://github.com/" ++ owner ++ '/' :: (repoSeg ++ tail) =
      str "https://" ++ (str "github.com/" ++ (owner ++ '/' :: (repoSeg ++ tail))) := by
    rw [show str "https://github.com/" = str "https://" ++ str "github.com/" from rfl]
    simp [List.append_assoc]
  unfold parseRepoUrl
  rw [hassoc, findUrlMatch_https]
  have hhit := tryUrlAt_hit owner repoSeg tail ho1 ho2 hs1 hs2 htail
  show (match
      (match tryUrlAt (str "github.com/" ++ (owner ++ '/' :: (repoSeg ++ tail))) with
        | some m => some m
        | none => findUrlMatch (str "ithub.com/" ++ (owner ++ '/' :: (repoSeg ++ tail)))) with
    | none => Except.error invalidUrlMsg
    | some (o, r) => Except.ok (o, stripDotGit r)) = Except.ok (owner, stripDotGit repoSeg)
  rw [hhit]

theorem stripDotGit_append_git (rn : Str) : stripDotGit (rn ++ str ".git") = rn := by
  unfold stripDotGit
  have he : endsWith (str ".git") (rn ++ str ".git") = true := by
    unfold endsWith
    rw [List.reverse_append]
    exact startsWith_self_append _ _
  rw [he]
  simp only [if_true, List.length_append]
  rw [show (str ".git").length = 4 from rfl, Nat.add_sub_cancel, List.take_left]

theorem stripDotGit_of_not (s : Str) (h : endsWith (str ".git") s = false) :
    stripDotGit s = s := by
  unfold stripDotGit
  rw [h]
  simp

theorem substrOf_cons (a : Str) (c : Char) (s : Str) (h : substrOf a s) :
    substrOf a (c :: s) := by
  obtain ⟨u, v, rfl⟩ := h
  exact ⟨c :: u, v, by simp⟩

theorem substrOf_length_le (a b : Str) (h : substrOf a b) : a.length ≤ b.length := by
  obtain ⟨u, v, rfl⟩ := h
  simp only [List.length_append]
  omega

theorem findUrlMatch_none (s : Str) (h : ¬ substrOf (str "github.com/") s) :
    findUrlMatch s = none := by
  induction s with
  | nil => rfl
  | cons c rest ih =>
    have hsw : startsWith (str "github.com/") (c :: rest) = false := by
      cases hx : startsWith (str "github.com/") (c :: rest) with
      | false => rfl
      | true =>
        obtain ⟨r, hr⟩ := startsWith_ex _ _ hx
        exact absurd ⟨[], r, by simpa using hr⟩ h
    have hna : tryUrlAt (c :: rest) = none := by
      unfold tryUrlAt
      rw [hsw]
      simp
    show (match tryUrlAt (c :: rest) with
      | some m => some m
      | none => findUrlMatch rest) = none
    rw [hna]
    exact ih (fun hsub => h (substrOf_cons _ c rest hsub))

/-- C3 (amended): the URL parser extracts `(owner, repo)` (with one trailing
`.git` stripped) from every well-formed `https://github.com/owner/repo`
URL with optional `.git` suffix and optional trailing path, and it fails with
the invalid-URL error on every string not containing `github.com/` — but its
pattern is unanchored, so it also accepts such substrings without the
`https://` scheme (see the counterexample). -/
theorem parseRepoUrl_urls :
    (∀ owner rn g tail : Str, owner ≠ [] → (∀ c ∈ owner, c ≠ '/') →
      rn ≠ [] → (∀ c ∈ rn, c ≠ '/') → endsWith (str ".git") rn = false →
      (g = [] ∨ g = str ".git") →
      (tail = [] ∨ ∃ p, tail = '/' :: p ∧ ∀ c ∈ p, isLineTerm c = false) →
      parseRepoUrl (str "https://github.com/" ++ owner ++ '/' :: ((rn ++ g) ++ tail)) =
        .ok (owner, rn)) ∧
    (∀ s, ¬ substrOf (str "github.com/") s → parseRepoUrl s = .error invalidUrlMsg) := by
  constructor
  · intro owner rn g tail ho1 ho2 hrn1 hrn2 hrngit hg htail
    rcases hg with rfl | rfl
    · rw [List.append_nil]
      rw [parseRepoUrl_valid owner rn tail ho1 ho2 hrn1 hrn2 htail]
      rw [stripDotGit_of_not rn hrngit]
    · have hs1 : rn ++ str ".git" ≠ [] := by
        intro hx
        exact hrn1 (List.append_eq_nil.mp hx).1
      have hs2 : ∀ c ∈ rn ++ str ".git", c ≠ '/' := by
        intro c hc
        rcases List.mem_append.mp hc with hc | hc
        · exact hrn2 c hc
        · rw [show str ".git" = ['.', 'g', 'i', 't'] from rfl] at hc
          simp only [List.mem_cons, List.not_mem_nil, or_false] at hc
          rcases hc with rfl | rfl | rfl | rfl <;> decide
      rw [parseRepoUrl_valid owner (rn ++ str ".git") tail ho1 ho2 hs1 hs2 htail]
      rw [stripDotGit_append_git rn]
  · intro s h
    unfold parseRepoUrl
    rw [findUrlMatch_none s h]

theorem parseRepoUrl_urls_witness :
    parseRepoUrl (str "https://github.com/f-oo/bar.git/tree/main") =
        .ok (str "f-oo", str "bar") ∧
      parseRepoUrl (str "nope") = .error invalidUrlMsg := by
  constructor
  · have h := parseRepoUrl_urls.1 (str "f-oo") (str "bar") (str ".git") (str "/tree/main")
      (by decide) (by decide) (by decide) (by decide) (by decide) (Or.inr rfl)
      (Or.inr ⟨str "tree/main", rfl, by decide⟩)
    rw [show str "https://github.com/f-oo/bar.git/tree/main" =
      str "https://github.com/" ++ str "f-oo" ++ '/' ::
        ((str "bar" ++ str ".git") ++ str "/tree/main") from rfl]
    exact h
  · exact parseRepoUrl_urls.2 (str "nope")
      (fun hs => absurd (substrOf_length_le _ _ hs) (by decide))

/-- C3 counterexample: the pattern is unanchored, so a string without the
`https://` scheme — outside the claimed shape — is accepted rather than
rejected with the invalid-URL error. -/
theorem parseRepoUrl_accepts_nonhttps :
    parseRepoUrl (str "github.com/foo/bar") = .ok (str "foo", str "bar") := rfl

theorem takeWhile_drop_decomp (p : α → Bool) (l : List α) :
    l.takeWhile p ++ l.drop (l.takeWhile p).length = l := by
  induction l with
  | nil => rfl
  | cons x xs ih =>
    cases hx : p x with
    | false => simp [List.takeWhile_cons, hx]
    | true => simp [List.takeWhile_cons, hx, ih]

theorem urlWord_ne_slash (x : Char) (hx : isUrlWordChar x = true) : x ≠ '/' := by
  intro hxe
  subst hxe
  exact absurd hx (by decide)

theorem ne_nil_of_isEmpty_false (l : List α) (h : l.isEmpty = false) : l ≠ [] := by
  cases l with
  | nil => simp at h
  | cons x xs => simp

/-- C4 (amended): every URL accepted by the orchestrator's validation regex
is accepted by the URL parser (the containment is strict: see the
counterexample). -/
theorem routeUrlOk_subset_accepted (s : Str) (h : routeUrlOk s = true) :
    ∃ o r, parseRepoUrl s = .ok (o, r) := by
  unfold routeUrlOk at h
  rcases hsw : startsWith (str "https://github.com/") s with _ | _
  · rw [hsw] at h
    simp at h
  rw [hsw] at h
  simp only [if_true] at h
  obtain ⟨rest, rfl⟩ := startsWith_ex _ _ hsw
  rw [show (19 : Nat) = (str "https://github.com/").length from rfl, List.drop_left] at h
  have hadecomp : rest.takeWhile isUrlWordChar ++
      rest.drop (rest.takeWhile isUrlWordChar).length = rest :=
    takeWhile_drop_decomp isUrlWordChar rest
  have hamem : ∀ x ∈ rest.takeWhile isUrlWordChar, x ≠ '/' := fun x hx =>
    urlWord_ne_slash x (List.mem_takeWhile_imp hx)
  rcases hae : (rest.takeWhile isUrlWordChar).isEmpty with _ | _
  swap
  · rw [hae] at h
    simp at h
  rw [hae] at h
  simp only [Bool.false_eq_true, if_false] at h
  have ha1 : rest.takeWhile isUrlWordChar ≠ [] := ne_nil_of_isEmpty_false _ hae
  split at h
  case _ r2 heq =>
    have hbdecomp : r2.takeWhile isUrlWordChar ++
        r2.drop (r2.takeWhile isUrlWordChar).length = r2 :=
      takeWhile_drop_decomp isUrlWordChar r2
    have hbmem : ∀ x ∈ r2.takeWhile isUrlWordChar, x ≠ '/' := fun x hx =>
      urlWord_ne_slash x (List.mem_takeWhile_imp hx)
    rcases hbe : (r2.takeWhile isUrlWordChar).isEmpty with _ | _
    swap
    · rw [hbe] at h
      simp at h
    rw [hbe] at h
    simp only [Bool.false_eq_true, if_false] at h
    have hb1 : r2.takeWhile isUrlWordChar ≠ [] := ne_nil_of_isEmpty_false _ hbe
    have hrest : rest = rest.takeWhile isUrlWordChar ++
        '/' :: (r2.takeWhile isUrlWordChar ++ r2.drop (r2.takeWhile isUrlWordChar).length) := by
      rw [hbdecomp, ← heq, hadecomp]
    have htail : r2.drop (r2.takeWhile isUrlWordChar).length = [] ∨
        ∃ p, r2.drop (r2.takeWhile isUrlWordChar).length = '/' :: p ∧
          ∀ c ∈ p, isLineTerm c = false := by
      split at h
      · left
        assumption
      · next heq2 =>
        right
        exact ⟨[], heq2, fun c hc => absurd hc (List.not_mem_nil c)⟩
      · simp at h
    have hv := parseRepoUrl_valid (rest.takeWhile isUrlWordChar)
      (r2.takeWhile isUrlWordChar) (r2.drop (r2.takeWhile isUrlWordChar).length)
      ha1 hamem hb1 hbmem htail
    rw [List.append_assoc, ← hrest] at hv
    exact ⟨_, _, hv⟩
  case _ =>
    simp at h

theorem routeUrlOk_subset_accepted_witness :
    routeUrlOk (str "https://github.com/octo-org/octo.repo") = true ∧
      ∃ o r, parseRepoUrl (str "https://github.com/octo-org/octo.repo") = .ok (o, r) :=
  ⟨by decide, routeUrlOk_subset_accepted (str "https://github.com/octo-org/octo.repo") (by decide)⟩

/-- C4 counterexample: the two acceptance patterns are not the same
language — the parser accepts a scheme-less URL that the orchestrator's
validation rejects. -/
theorem acceptance_patterns_differ :
    routeUrlOk (str "github.com/a/b") = false ∧
      parseRepoUrl (str "github.com/a/b") = .ok (str "a", str "b") :=
  ⟨by decide, rfl⟩

/-!
## Response-normalizer round-trip (C7)
-/

/-- The backtick character (stripped by the fence regexes). -/
def tick : Char := Char.ofNat 0x60

/-- No backtick occurs in the string. -/
def noTick (s : Str) : Prop := ∀ c ∈ s, c ≠ tick

/-- Neither brace occurs in the string. -/
def braceFree (s : Str) : Prop := ∀ c ∈ s, c ≠ '\x7b' ∧ c ≠ '\x7d'

/-- Well-formed numeric tokens: nonempty, starting like a number, all
characters from the numeric scanner's set (every token the parser itself
produces has this shape). -/
def numTok (t : Str) : Bool :=
  match t with
  | [] => false
  | c :: _ => (c = '-' ∨ c.isDigit) && t.all isNumChar

mutual
/-- Well-formedness: every numeric literal is a well-formed token. -/
def jsonWF : Json → Bool
  | .null => true
  | .bool _ => true
  | .str _ => true
  | .num t => numTok t
  | .arr l => jsonWFlist l
  | .obj l => jsonWFfields l

def jsonWFlist : List Json → Bool
  | [] => true
  | x :: xs => jsonWF x && jsonWFlist xs

def jsonWFfields : List (Str × Json) → Bool
  | [] => true
  | (_, v) :: xs => jsonWF v && jsonWFfields xs
end

mutual
/-- Fuel sufficient for `parseVal` on the serialization of a value. -/
def jsonFuel : Json → Nat
  | .null => 1
  | .bool _ => 1
  | .num _ => 1
  | .str _ => 1
  | .arr l => 1 + jsonFuelList l
  | .obj l => 1 + jsonFuelFields l

def jsonFuelList : List Json → Nat
  | [] => 1
  | x :: xs => 1 + jsonFuel x + jsonFuelList xs

def jsonFuelFields : List (Str × Json) → Nat
  | [] => 1
  | (_, v) :: xs => 1 + jsonFuel v + jsonFuelFields xs
end

theorem jsonFuel_pos (j : Json) : 1 ≤ jsonFuel j := by
  cases j <;> simp only [jsonFuel] <;> omega

theorem hexVal_hexDigit : ∀ d, d < 16 → hexVal (hexDigit d) = some d := by decide

theorem parseStrBody_escape (s rest : Str) :
    parseStrBody (escapeStr s ++ '"' :: rest) = some (s, rest) := by
  induction s with
  | nil =>
    show parseStrBody ('"' :: rest) = _
    rw [parseStrBody.eq_def]
    simp
  | cons c cs ih =>
    show parseStrBody ((escapeChar c ++ escapeStr cs) ++ '"' :: rest) = _
    rw [List.append_assoc]
    unfold escapeChar
    by_cases h1 : c = '"'
    · subst h1
      rw [if_pos rfl]
      show parseStrBody ('\\' :: '"' :: (escapeStr cs ++ '"' :: rest)) = _
      rw [parseStrBody.eq_def]
      simp [escDecode, ih]
    · rw [if_neg h1]
      by_cases h2 : c = '\\'
      · subst h2
        rw [if_pos rfl]
        show parseStrBody ('\\' :: '\\' :: (escapeStr cs ++ '"' :: rest)) = _
        rw [parseStrBody.eq_def]
        simp [escDecode, ih]
      · rw [if_neg h2]
        by_cases h3 : c = '\n'
        · subst h3
          rw [if_pos rfl]
          show parseStrBody ('\\' :: 'n' :: (escapeStr cs ++ '"' :: rest)) = _
          rw [parseStrBody.eq_def]
          simp [escDecode, ih]
        · rw [if_neg h3]
          by_cases h4 : c = '\r'
          · subst h4
            rw [if_pos rfl]
            show parseStrBody ('\\' :: 'r' :: (escapeStr cs ++ '"' :: rest)) = _
            rw [parseStrBody.eq_def]
            simp [escDecode, ih]
          · rw [if_neg h4]
            by_cases h5 : c = '\t'
            · subst h5
              rw [if_pos rfl]
              show parseStrBody ('\\' :: 't' :: (escapeStr cs ++ '"' :: rest)) = _
              rw [parseStrBody.eq_def]
              simp [escDecode, ih]
            · rw [if_neg h5]
              by_cases h6 : c.val = 8
              · rw [if_pos h6]
                show parseStrBody ('\\' :: 'b' :: (escapeStr cs ++ '"' :: rest)) = _
                rw [parseStrBody.eq_def]
                have hc8 : c.toNat = 8 := by
                  rw [Char.toNat, h6]
                  rfl
                have hc : Char.ofNat 8 = c := by
                  rw [← hc8, Char.ofNat_toNat]
                simp [escDecode, ih]
                exact hc
              · rw [if_neg h6]
                by_cases h7 : c.val = 12
                · rw [if_pos h7]
                  show parseStrBody ('\\' :: 'f' :: (escapeStr cs ++ '"' :: rest)) = _
                  rw [parseStrBody.eq_def]
                  have hc12 : c.toNat = 12 := by
                    rw [Char.toNat, h7]
                    rfl
                  have hc : Char.ofNat 12 = c := by
                    rw [← hc12, Char.ofNat_toNat]
                  simp [escDecode, ih]
                  exact hc
                · rw [if_neg h7]
                  by_cases h8 : c.val < 32
                  · rw [if_pos h8]
                    show parseStrBody ('\\' :: 'u' ::
                      (hex4 c.toNat ++ (escapeStr cs ++ '"' :: rest))) = _
                    unfold hex4
                    show parseStrBody ('\\' :: 'u' ::
                      hexDigit (c.toNat / 4096 % 16) :: hexDigit (c.toNat / 256 % 16) ::
                      hexDigit (c.toNat / 16 % 16) :: hexDigit (c.toNat % 16) ::
                      (escapeStr cs ++ '"' :: rest)) = _
                    rw [parseStrBody.eq_def]
                    have h16 : ∀ n : Nat, n % 16 < 16 := fun n => Nat.mod_lt _ (by omega)
                    have harith : c.toNat / 4096 % 16 * 4096 + c.toNat / 256 % 16 * 256 +
                        c.toNat / 16 % 16 * 16 + c.toNat % 16 = c.toNat := by
                      have hlt : c.toNat < 32 := by
                        rw [Char.toNat]
                        exact UInt32.toNat_lt_of_lt (by decide) h8
                      omega
                    simp [hexVal_hexDigit _ (h16 _), ih, harith, Char.ofNat_toNat]
                  · rw [if_neg h8]
                    show parseStrBody (c :: (escapeStr cs ++ '"' :: rest)) = _
                    rw [parseStrBody.eq_def]
                    simp only [if_neg h1, if_neg h2, if_neg h8]
                    simp [ih]

theorem isNumChar_not_ws (c : Char) (h : isNumChar c = true) : isWs c = false := by
  cases hw : isWs c with
  | false => rfl
  | true =>
    exfalso
    simp only [isWs, Bool.or_eq_true, beq_iff_eq] at hw
    rcases hw with ((rfl | rfl) | rfl) | rfl <;> simp [isNumChar] at h

theorem numHead_ne (c : Char) (h : c = '-' ∨ c.isDigit = true) :
    isWs c = false ∧ c ≠ 'n' ∧ c ≠ 't' ∧ c ≠ 'f' ∧ c ≠ '"' ∧ c ≠ '[' ∧
      c ≠ '\x7b' ∧ c ≠ ']' := by
  rcases h with rfl | h
  · refine ⟨rfl, ?_, ?_, ?_, ?_, ?_, ?_, ?_⟩ <;> decide
  · refine ⟨?_, ?_, ?_, ?_, ?_, ?_, ?_, ?_⟩
    · exact isNumChar_not_ws c (by simp [isNumChar, h])
    all_goals
      intro hc
      subst hc
      simp at h

theorem jsonWF_num (t : Str) (h : jsonWF (.num t) = true) :
    ∃ c cs, t = c :: cs ∧ (c = '-' ∨ c.isDigit = true) ∧ ∀ x ∈ t, isNumChar x = true := by
  simp only [jsonWF, numTok] at h
  cases t with
  | nil => simp at h
  | cons c cs =>
    simp only [Bool.and_eq_true, List.all_eq_true, decide_eq_true_eq] at h
    exact ⟨c, cs, rfl, by tauto, fun x hx => h.2 x hx⟩

/-- The first character of a serialized well-formed value: never whitespace
and never `]`. -/
theorem stringify_head (j : Json) (h : jsonWF j = true) :
    ∃ c t2, stringify j = c :: t2 ∧ isWs c = false ∧ c ≠ ']' := by
  cases j with
  | null => exact ⟨'n', _, rfl, by decide, by decide⟩
  | bool b =>
    cases b with
    | false => exact ⟨'f', _, rfl, by decide, by decide⟩
    | true => exact ⟨'t', _, rfl, by decide, by decide⟩
  | str s => exact ⟨'"', _, rfl, by decide, by decide⟩
  | num t =>
    obtain ⟨c, cs, rfl, hc, _⟩ := jsonWF_num t h
    obtain ⟨h1, _, _, _, _, _, _, h8⟩ := numHead_ne c hc
    exact ⟨c, cs, rfl, h1, h8⟩
  | arr l => exact ⟨'[', _, rfl, by decide, by decide⟩
  | obj l => exact ⟨'\x7b', _, rfl, by decide, by decide⟩

theorem parseVal_null (f : Nat) (rest : Str) :
    parseVal (f + 1) (str "null" ++ rest) = some (.null, rest) := by
  show parseVal (f + 1) ('n' :: 'u' :: 'l' :: 'l' :: rest) = _
  rw [parseVal.eq_def]
  simp only [List.dropWhile_cons]
  rw [show ('u' :: 'l' :: 'l' :: rest) = str "ull" ++ rest from rfl]
  simp [startsWith_self_append, isWs]
  rfl

theorem parseVal_true (f : Nat) (rest : Str) :
    parseVal (f + 1) (str "true" ++ rest) = some (.bool true, rest) := by
  show parseVal (f + 1) ('t' :: 'r' :: 'u' :: 'e' :: rest) = _
  rw [parseVal.eq_def]
  simp only [List.dropWhile_cons]
  rw [show ('r' :: 'u' :: 'e' :: rest) = str "rue" ++ rest from rfl]
  simp [startsWith_self_append, isWs]
  rfl

theorem parseVal_false (f : Nat) (rest : Str) :
    parseVal (f + 1) (str "false" ++ rest) = some (.bool false, rest) := by
  show parseVal (f + 1) ('f' :: 'a' :: 'l' :: 's' :: 'e' :: rest) = _
  rw [parseVal.eq_def]
  simp only [List.dropWhile_cons]
  rw [show ('a' :: 'l' :: 's' :: 'e' :: rest) = str "alse" ++ rest from rfl]
  simp [startsWith_self_append, isWs]
  rfl

theorem parseVal_str (f : Nat) (s rest : Str) :
    parseVal (f + 1) (stringify (.str s) ++ rest) = some (.str s, rest) := by
  show parseVal (f + 1) ('"' :: ((escapeStr s ++ ['"']) ++ rest)) = _
  rw [List.append_assoc]
  rw [parseVal.eq_def]
  simp only [List.dropWhile_cons]
  simp [isWs, parseStrBody_escape]

theorem dropWhile_id_of_head (c : Char) (t : Str) (h : isWs c = false) :
    (c :: t).dropWhile isWs = c :: t := by
  simp [List.dropWhile_cons, h]

theorem takeWhile_numTok (t rest : Str) (hall : ∀ x ∈ t, isNumChar x = true)
    (hb : ∀ c, rest.head? = some c → isNumChar c = false) :
    (t ++ rest).takeWhile isNumChar = t := by
  cases rest with
  | nil => rw [List.append_nil]; exact takeWhile_all _ _ hall
  | cons r0 rs => exact takeWhile_append_stop _ _ _ _ hall (hb r0 rfl)

theorem parseVal_num (f : Nat) (t rest : Str) (h : numTok t = true)
    (hb : ∀ c, rest.head? = some c → isNumChar c = false) :
    parseVal (f + 1) (t ++ rest) = some (.num t, rest) := by
  obtain ⟨c, cs, rfl, hc, hall⟩ := jsonWF_num t (by simpa [jsonWF] using h)
  obtain ⟨h1, h2, h3, h4, h5, h6, h7, _⟩ := numHead_ne c hc
  show parseVal (f + 1) (c :: (cs ++ rest)) = _
  rw [parseVal.eq_def]
  simp only [List.dropWhile_cons, h1, Bool.false_eq_true, if_false]
  simp only [h2, h3, h4, h5, h6, h7, if_false, ite_false]
  rw [if_pos hc]
  have htok : (c :: (cs ++ rest)).takeWhile isNumChar = c :: cs := by
    rw [show c :: (cs ++ rest) = (c :: cs) ++ rest from rfl]
    exact takeWhile_numTok _ _ hall hb
  simp only [htok]
  rw [show c :: (cs ++ rest) = (c :: cs) ++ rest from rfl, List.drop_left]

theorem parseVal_arrE (f : Nat) (c : Char) (t : Str)
    (hws : isWs c = false) (hne : c ≠ ']') :
    parseVal (f + 1) ('[' :: c :: t) =
      (parseElems f (c :: t)).map fun (l, r) => (Json.arr l, r) := by
  rw [parseVal.eq_def]
  simp [List.dropWhile_cons, hws, show isWs '[' = false by decide]
  split
  · next r heq => exact absurd (List.cons.inj heq).1 hne
  · rfl

theorem parseVal_objF (f : Nat) (c : Char) (t : Str)
    (hws : isWs c = false) (hne : c ≠ '\x7d') :
    parseVal (f + 1) ('\x7b' :: c :: t) =
      (parseFields f (c :: t)).map fun (l, r) => (Json.obj l, r) := by
  rw [parseVal.eq_def]
  simp [List.dropWhile_cons, hws, show isWs '\x7b' = false by decide]
  split
  · next r heq => exact absurd (List.cons.inj heq).1 hne
  · rfl

theorem parseVal_arr_nil (f : Nat) (rest : Str) :
    parseVal (f + 1) ('[' :: ']' :: rest) = some (.arr [], rest) := by
  rw [parseVal.eq_def]
  simp [List.dropWhile_cons, show isWs '[' = false by decide,
    show isWs ']' = false by decide]

theorem parseVal_obj_nil (f : Nat) (rest : Str) :
    parseVal (f + 1) ('\x7b' :: '\x7d' :: rest) = some (.obj [], rest) := by
  rw [parseVal.eq_def]
  simp [List.dropWhile_cons, show isWs '\x7b' = false by decide,
    show isWs '\x7d' = false by decide]

/-- Round trip: `parseVal` recovers any well-formed value from its
serialization (with the three mutual parsers handled simultaneously,
by strong induction on size). -/
theorem parse_stringify (n : Nat) :
    (∀ j : Json, sizeOf j ≤ n → jsonWF j = true →
      ∀ f rest, jsonFuel j ≤ f →
        (∀ c, rest.head? = some c → isNumChar c = false) →
        parseVal f (stringify j ++ rest) = some (j, rest)) ∧
    (∀ l : List Json, sizeOf l ≤ n → jsonWFlist l = true → l ≠ [] →
      ∀ f rest, jsonFuelList l ≤ f →
        parseElems f (stringifyArr l ++ ']' :: rest) = some (l, rest)) ∧
    (∀ l : List (Str × Json), sizeOf l ≤ n → jsonWFfields l = true → l ≠ [] →
      ∀ f rest, jsonFuelFields l ≤ f →
        parseFields f (stringifyObj l ++ '\x7d' :: rest) = some (l, rest)) := by
  induction n using Nat.strong_induction_on with
  | _ n ih =>
  refine ⟨?_, ?_, ?_⟩
  · intro j hsz hwf f rest hf hb
    have hf1 : 1 ≤ jsonFuel j := jsonFuel_pos j
    obtain ⟨f1, rfl⟩ : ∃ f1, f = f1 + 1 := ⟨f - 1, by omega⟩
    cases j with
    | null => exact parseVal_null f1 rest
    | bool b =>
      cases b with
      | false => exact parseVal_false f1 rest
      | true => exact parseVal_true f1 rest
    | str s => exact parseVal_str f1 s rest
    | num t => exact parseVal_num f1 t rest (by simpa [jsonWF] using hwf) hb
    | arr l =>
      cases l with
      | nil => exact parseVal_arr_nil f1 rest
      | cons x xs =>
        have hstep : stringify (.arr (x :: xs)) ++ rest
            = '[' :: (stringifyArr (x :: xs) ++ ']' :: rest) := by
          show ('[' :: (stringifyArr (x :: xs) ++ [']'])) ++ rest = _
          simp
        rw [hstep]
        have hwfl : jsonWFlist (x :: xs) = true := by simpa [jsonWF] using hwf
        have hwfx : jsonWF x = true := by
          simp only [jsonWFlist, Bool.and_eq_true] at hwfl
          exact hwfl.1
        obtain ⟨c, t2, hhead, hcws, hcne⟩ := stringify_head x hwfx
        obtain ⟨T, hT⟩ : ∃ T, stringifyArr (x :: xs) ++ ']' :: rest = c :: T := by
          cases xs with
          | nil =>
            refine ⟨t2 ++ ']' :: rest, ?_⟩
            show stringify x ++ ']' :: rest = _
            rw [hhead]
            simp
          | cons y ys =>
            refine ⟨t2 ++ ',' :: stringifyArr (y :: ys) ++ ']' :: rest, ?_⟩
            show (stringify x ++ ',' :: stringifyArr (y :: ys)) ++ ']' :: rest = _
            rw [hhead]
            simp
        rw [hT, parseVal_arrE f1 c T hcws hcne, ← hT]
        have hszl : sizeOf (x :: xs) < n := by
          have hs : sizeOf (Json.arr (x :: xs)) = 1 + sizeOf (x :: xs) := by simp
          omega
        have hfl : jsonFuelList (x :: xs) ≤ f1 := by
          simp only [jsonFuel] at hf
          omega
        rw [(ih (sizeOf (x :: xs)) hszl).2.1 (x :: xs) le_rfl hwfl (by simp) f1 rest hfl]
        rfl
    | obj l =>
      cases l with
      | nil => exact parseVal_obj_nil f1 rest
      | cons kv fs =>
        have hstep : stringify (.obj (kv :: fs)) ++ rest
            = '\x7b' :: (stringifyObj (kv :: fs) ++ '\x7d' :: rest) := by
          show ('\x7b' :: (stringifyObj (kv :: fs) ++ ['\x7d'])) ++ rest = _
          simp
        rw [hstep]
        have hwfl : jsonWFfields (kv :: fs) = true := by simpa [jsonWF] using hwf
        obtain ⟨T, hT⟩ : ∃ T, stringifyObj (kv :: fs) ++ '\x7d' :: rest = '"' :: T := by
          obtain ⟨k, v⟩ := kv
          cases fs with
          | nil =>
            refine ⟨(escapeStr k ++ '"' :: ':' :: stringify v) ++ '\x7d' :: rest, ?_⟩
            show ('"' :: (escapeStr k ++ '"' :: ':' :: stringify v)) ++ '\x7d' :: rest = _
            simp
          | cons p ps =>
            refine ⟨(escapeStr k ++ '"' :: ':' :: stringify v)
              ++ ',' :: stringifyObj (p :: ps) ++ '\x7d' :: rest, ?_⟩
            show (('"' :: (escapeStr k ++ '"' :: ':' :: stringify v))
              ++ ',' :: stringifyObj (p :: ps)) ++ '\x7d' :: rest = _
            simp
        rw [hT, parseVal_objF f1 '"' T (by decide) (by decide), ← hT]
        have hszl : sizeOf (kv :: fs) < n := by
          have hs : sizeOf (Json.obj (kv :: fs)) = 1 + sizeOf (kv :: fs) := by simp
          omega
        have hfl : jsonFuelFields (kv :: fs) ≤ f1 := by
          simp only [jsonFuel] at hf
          omega
        rw [(ih (sizeOf (kv :: fs)) hszl).2.2 (kv :: fs) le_rfl hwfl (by simp) f1 rest hfl]
        rfl
  · intro l hsz hwf hne f rest hf
    cases l with
    | nil => exact absurd rfl hne
    | cons x xs =>
      have hfx : 1 + jsonFuel x + jsonFuelList xs ≤ f := by
        simpa [jsonFuelList] using hf
      obtain ⟨f1, rfl⟩ : ∃ f1, f = f1 + 1 := ⟨f - 1, by omega⟩
      have hwfx : jsonWF x = true := by
        simp only [jsonWFlist, Bool.and_eq_true] at hwf
        exact hwf.1
      have hszc : sizeOf (x :: xs) = 1 + sizeOf x + sizeOf xs := by simp
      have hszx : sizeOf x < n := by omega
      rw [parseElems.eq_def]
      cases xs with
      | nil =>
        have hPV := (ih (sizeOf x) hszx).1 x le_rfl hwfx f1 (']' :: rest)
          (by simp only [jsonFuelList] at hfx; omega)
          (fun c hc => by
            rw [List.head?_cons, Option.some.injEq] at hc
            subst hc
            decide)
        rw [show stringifyArr [x] = stringify x from rfl]
        simp [hPV, List.dropWhile_cons, show isWs ']' = false by decide]
      | cons y ys =>
        have hform : stringifyArr (x :: y :: ys) ++ ']' :: rest
            = stringify x ++ (',' :: (stringifyArr (y :: ys) ++ ']' :: rest)) := by
          show (stringify x ++ ',' :: stringifyArr (y :: ys)) ++ ']' :: rest = _
          simp
        have hPV := (ih (sizeOf x) hszx).1 x le_rfl hwfx f1
          (',' :: (stringifyArr (y :: ys) ++ ']' :: rest))
          (by omega)
          (fun c hc => by
            rw [List.head?_cons, Option.some.injEq] at hc
            subst hc
            decide)
        rw [hform]
        have hwfys : jsonWFlist (y :: ys) = true := by
          have h0 := hwf
          rw [jsonWFlist, Bool.and_eq_true] at h0
          exact h0.2
        have hszys : sizeOf (y :: ys) < n := by
          have h2 : sizeOf (y :: ys) = 1 + sizeOf y + sizeOf ys := by simp
          have h3 : sizeOf (x :: y :: ys) = 1 + sizeOf x + sizeOf (y :: ys) := by simp
          omega
        have hP2 := (ih (sizeOf (y :: ys)) hszys).2.1 (y :: ys) le_rfl hwfys (by simp)
          f1 rest (by simp only [jsonFuelList] at hfx ⊢; omega)
        simp [hPV, List.dropWhile_cons, show isWs ',' = false by decide, hP2]
  · intro l hsz hwf hne f rest hf
    cases l with
    | nil => exact absurd rfl hne
    | cons kv fs =>
      obtain ⟨k, v⟩ := kv
      have hfx : 1 + jsonFuel v + jsonFuelFields fs ≤ f := by
        simpa [jsonFuelFields] using hf
      obtain ⟨f1, rfl⟩ : ∃ f1, f = f1 + 1 := ⟨f - 1, by omega⟩
      have hwfv : jsonWF v = true := by
        simp only [jsonWFfields, Bool.and_eq_true] at hwf
        exact hwf.1
      have hszc : sizeOf ((k, v) :: fs) = 1 + (1 + sizeOf k + sizeOf v) + sizeOf fs := by
        simp
      have hszv : sizeOf v < n := by omega
      rw [parseFields.eq_def]
      cases fs with
      | nil =>
        have hform : stringifyObj [(k, v)] ++ '\x7d' :: rest
            = '"' :: (escapeStr k ++ '"' :: (':' :: (stringify v ++ '\x7d' :: rest))) := by
          show ('"' :: (escapeStr k ++ '"' :: ':' :: stringify v)) ++ '\x7d' :: rest = _
          simp
        have hPV := (ih (sizeOf v) hszv).1 v le_rfl hwfv f1 ('\x7d' :: rest)
          (by omega)
          (fun c hc => by
            rw [List.head?_cons, Option.some.injEq] at hc
            subst hc
            decide)
        rw [hform]
        simp [parseStrBody_escape, hPV, List.dropWhile_cons,
          show isWs '"' = false by decide, show isWs ':' = false by decide,
          show isWs '\x7d' = false by decide]
      | cons p ps =>
        have hform : stringifyObj ((k, v) :: p :: ps) ++ '\x7d' :: rest
            = '"' :: (escapeStr k ++ '"' :: (':' :: (stringify v
                ++ ',' :: (stringifyObj (p :: ps) ++ '\x7d' :: rest)))) := by
          show (('"' :: (escapeStr k ++ '"' :: ':' :: stringify v))
            ++ ',' :: stringifyObj (p :: ps)) ++ '\x7d' :: rest = _
          simp
        have hPV := (ih (sizeOf v) hszv).1 v le_rfl hwfv f1
          (',' :: (stringifyObj (p :: ps) ++ '\x7d' :: rest))
          (by omega)
          (fun c hc => by
            rw [List.head?_cons, Option.some.injEq] at hc
            subst hc
            decide)
        have hwfps : jsonWFfields (p :: ps) = true := by
          have h0 := hwf
          rw [jsonWFfields, Bool.and_eq_true] at h0
          exact h0.2
        have hszps : sizeOf (p :: ps) < n := by
          have h2 : sizeOf ((k, v) :: p :: ps)
              = 1 + (1 + sizeOf k + sizeOf v) + sizeOf (p :: ps) := by simp
          omega
        have hP3 := (ih (sizeOf (p :: ps)) hszps).2.2 (p :: ps) le_rfl hwfps (by simp)
          f1 rest (by simp only [jsonFuelFields] at hfx ⊢; omega)
        rw [hform]
        simp [parseStrBody_escape, hPV, hP3, List.dropWhile_cons,
          show isWs '"' = false by decide, show isWs ':' = false by decide,
          show isWs ',' = false by decide]

/-- The fuel that `jsonParse` allots (twice the input length plus two) always
covers `jsonFuel` of a well-formed value. -/
theorem jsonFuel_le (n : Nat) :
    (∀ j : Json, sizeOf j ≤ n → jsonWF j = true →
      jsonFuel j + 1 ≤ 2 * (stringify j).length) ∧
    (∀ l : List Json, sizeOf l ≤ n → jsonWFlist l = true →
      jsonFuelList l ≤ 2 + 2 * (stringifyArr l).length) ∧
    (∀ l : List (Str × Json), sizeOf l ≤ n → jsonWFfields l = true →
      jsonFuelFields l ≤ 2 + 2 * (stringifyObj l).length) := by
  induction n using Nat.strong_induction_on with
  | _ n ih =>
  refine ⟨?_, ?_, ?_⟩
  · intro j hsz hwf
    cases j with
    | null => simp only [jsonFuel, stringify]; decide
    | bool b => cases b <;> simp only [jsonFuel, stringify] <;> decide
    | str s =>
      simp only [jsonFuel, stringify, List.length_cons, List.length_append]
      omega
    | num t =>
      obtain ⟨c, cs, rfl, -, -⟩ := jsonWF_num t hwf
      simp only [jsonFuel, stringify, List.length_cons]
      omega
    | arr l =>
      have hszl : sizeOf l < n := by
        have hs : sizeOf (Json.arr l) = 1 + sizeOf l := by simp
        omega
      have hB := (ih (sizeOf l) hszl).2.1 l le_rfl (by simpa [jsonWF] using hwf)
      simp only [jsonFuel, stringify, List.length_cons, List.length_append]
      omega
    | obj l =>
      have hszl : sizeOf l < n := by
        have hs : sizeOf (Json.obj l) = 1 + sizeOf l := by simp
        omega
      have hC := (ih (sizeOf l) hszl).2.2 l le_rfl (by simpa [jsonWF] using hwf)
      simp only [jsonFuel, stringify, List.length_cons, List.length_append]
      omega
  · intro l hsz hwf
    cases l with
    | nil => simp only [jsonFuelList, stringifyArr]; decide
    | cons x xs =>
      have hszc : sizeOf (x :: xs) = 1 + sizeOf x + sizeOf xs := by simp
      have hwfx : jsonWF x = true := by
        simp only [jsonWFlist, Bool.and_eq_true] at hwf
        exact hwf.1
      have hA := (ih (sizeOf x) (by omega)).1 x le_rfl hwfx
      cases xs with
      | nil =>
        simp only [jsonFuelList, stringifyArr]
        omega
      | cons y ys =>
        have hwfys : jsonWFlist (y :: ys) = true := by
          have h0 := hwf
          rw [jsonWFlist, Bool.and_eq_true] at h0
          exact h0.2
        have h2 : sizeOf (y :: ys) = 1 + sizeOf y + sizeOf ys := by simp
        have h3 : sizeOf (x :: y :: ys) = 1 + sizeOf x + sizeOf (y :: ys) := by simp
        have hB := (ih (sizeOf (y :: ys)) (by omega)).2.1 (y :: ys) le_rfl hwfys
        simp only [jsonFuelList, stringifyArr, List.length_append, List.length_cons]
        simp only [jsonFuelList] at hB
        omega
  · intro l hsz hwf
    cases l with
    | nil => simp only [jsonFuelFields, stringifyObj]; decide
    | cons kv fs =>
      obtain ⟨k, v⟩ := kv
      have hszc : sizeOf ((k, v) :: fs) = 1 + (1 + sizeOf k + sizeOf v) + sizeOf fs := by
        simp
      have hwfv : jsonWF v = true := by
        simp only [jsonWFfields, Bool.and_eq_true] at hwf
        exact hwf.1
      have hA := (ih (sizeOf v) (by omega)).1 v le_rfl hwfv
      cases fs with
      | nil =>
        simp only [jsonFuelFields, stringifyObj, List.length_cons, List.length_append]
        omega
      | cons p ps =>
        have hwfps : jsonWFfields (p :: ps) = true := by
          have h0 := hwf
          rw [jsonWFfields, Bool.and_eq_true] at h0
          exact h0.2
        have h2 : sizeOf (p :: ps) = 1 + sizeOf p + sizeOf ps := by simp
        have hB := (ih (sizeOf (p :: ps)) (by omega)).2.2 (p :: ps) le_rfl hwfps
        simp only [jsonFuelFields, stringifyObj, List.length_append, List.length_cons]
        simp only [jsonFuelFields] at hB
        omega

/-- `JSON.parse` inverts `JSON.stringify` on well-formed values. -/
theorem jsonParse_stringify (j : Json) (h : jsonWF j = true) :
    jsonParse (stringify j) = some j := by
  have hA := (jsonFuel_le (sizeOf j)).1 j le_rfl h
  have hPV := (parse_stringify (sizeOf j)).1 j le_rfl h (2 * (stringify j).length + 2) []
    (by omega) (fun c hc => by simp at hc)
  rw [List.append_nil] at hPV
  unfold jsonParse
  rw [hPV]
  simp

/-- The object round trip with an arbitrary unconsumed remainder. -/
theorem parseVal_obj_rt (l : List (Str × Json)) (hwf : jsonWF (.obj l) = true)
    (f : Nat) (rest : Str) (hf : jsonFuel (.obj l) ≤ f) :
    parseVal f (stringify (.obj l) ++ rest) = some (.obj l, rest) := by
  obtain ⟨f1, rfl⟩ : ∃ f1, f = f1 + 1 :=
    ⟨f - 1, by have := jsonFuel_pos (.obj l); omega⟩
  cases l with
  | nil => exact parseVal_obj_nil f1 rest
  | cons kv fs =>
    have hstep : stringify (.obj (kv :: fs)) ++ rest
        = '\x7b' :: (stringifyObj (kv :: fs) ++ '\x7d' :: rest) := by
      show ('\x7b' :: (stringifyObj (kv :: fs) ++ ['\x7d'])) ++ rest = _
      simp
    rw [hstep]
    have hwfl : jsonWFfields (kv :: fs) = true := by simpa [jsonWF] using hwf
    obtain ⟨T, hT⟩ : ∃ T, stringifyObj (kv :: fs) ++ '\x7d' :: rest = '"' :: T := by
      obtain ⟨k, v⟩ := kv
      cases fs with
      | nil =>
        refine ⟨(escapeStr k ++ '"' :: ':' :: stringify v) ++ '\x7d' :: rest, ?_⟩
        show ('"' :: (escapeStr k ++ '"' :: ':' :: stringify v)) ++ '\x7d' :: rest = _
        simp
      | cons p ps =>
        refine ⟨(escapeStr k ++ '"' :: ':' :: stringify v)
          ++ ',' :: stringifyObj (p :: ps) ++ '\x7d' :: rest, ?_⟩
        show (('"' :: (escapeStr k ++ '"' :: ':' :: stringify v))
          ++ ',' :: stringifyObj (p :: ps)) ++ '\x7d' :: rest = _
        simp
    rw [hT, parseVal_objF f1 '"' T (by decide) (by decide), ← hT]
    have hfl : jsonFuelFields (kv :: fs) ≤ f1 := by
      simp only [jsonFuel] at hf
      omega
    rw [(parse_stringify (sizeOf (kv :: fs))).2.2 (kv :: fs) le_rfl hwfl (by simp)
      f1 rest hfl]
    rfl

/-- Only objects pass the stage-1 shape check. -/
theorem shapeOk_obj (v : Json) (h : shapeOk v = true) : ∃ fl, v = .obj fl := by
  cases v
  case obj fl => exact ⟨fl, rfl⟩
  all_goals simp [shapeOk, jlookup, truthyOpt] at h

/-- A successful object parse means the first non-whitespace character of the
input was an opening brace. -/
theorem parseVal_obj_start (f : Nat) (s : Str) (fl : List (Str × Json)) (r : Str)
    (h : parseVal f s = some (.obj fl, r)) : ∃ t, s.dropWhile isWs = '\x7b' :: t := by
  cases f with
  | zero => simp [parseVal.eq_def] at h
  | succ f1 =>
    rcases hD : s.dropWhile isWs with - | ⟨c, t⟩
    · simp only [parseVal.eq_def, hD] at h
      exact absurd h (by simp)
    · simp only [parseVal.eq_def, hD] at h
      refine ⟨t, ?_⟩
      by_cases h1 : c = 'n'
      · rw [if_pos h1] at h
        split at h <;> simp at h
      rw [if_neg h1] at h
      by_cases h2 : c = 't'
      · rw [if_pos h2] at h
        split at h <;> simp at h
      rw [if_neg h2] at h
      by_cases h3 : c = 'f'
      · rw [if_pos h3] at h
        split at h <;> simp at h
      rw [if_neg h3] at h
      by_cases h4 : c = '"'
      · rw [if_pos h4] at h
        simp [Option.map_eq_some'] at h
      rw [if_neg h4] at h
      by_cases h5 : c = '['
      · rw [if_pos h5] at h
        split at h <;> simp [Option.map_eq_some'] at h
      rw [if_neg h5] at h
      by_cases h6 : c = '\x7b'
      · rw [h6]
      rw [if_neg h6] at h
      split at h <;> simp at h

/-- `jsonParse` returning an object means the trimmed input opens with `{`. -/
theorem jsonParse_obj_start (s : Str) (fl : List (Str × Json))
    (h : jsonParse s = some (.obj fl)) : ∃ t, s.dropWhile isWs = '\x7b' :: t := by
  unfold jsonParse at h
  cases hp : parseVal (2 * s.length + 2) s with
  | none => rw [hp] at h; simp at h
  | some vr =>
    obtain ⟨v, r⟩ := vr
    simp only [hp] at h
    split at h
    · exact parseVal_obj_start _ _ _ _ ((Option.some.inj h) ▸ hp)
    · simp at h

/-- Strings consisting only of whitespace. -/
def wsOnly (s : Str) : Prop := ∀ c ∈ s, isWs c = true

theorem dropWhile_all_append (p : α → Bool) (a b : List α)
    (ha : ∀ x ∈ a, p x = true) : (a ++ b).dropWhile p = b.dropWhile p := by
  induction a with
  | nil => rfl
  | cons x xs ih =>
    have hx : p x = true := ha x (by simp)
    simp [List.dropWhile_cons, hx, ih (fun y hy => ha y (by simp [hy]))]

theorem dropWhile_append_left (p : α → Bool) (a b : List α) (d : α) (ds : List α)
    (h : a.dropWhile p = d :: ds) : (a ++ b).dropWhile p = d :: (ds ++ b) := by
  induction a with
  | nil => simp at h
  | cons x xs ih =>
    rw [List.dropWhile_cons] at h
    rw [List.cons_append, List.dropWhile_cons]
    by_cases hx : p x
    · rw [if_pos hx] at h ⊢
      exact ih h
    · rw [if_neg hx] at h ⊢
      obtain ⟨rfl, rfl⟩ := List.cons.inj h
      rfl

/-- Right-trimming a string with a non-whitespace head keeps that head. -/
theorem rtrim_head (c : Char) (t : Str) (h : isWs c = false) :
    ∃ t2, ((c :: t).reverse.dropWhile isWs).reverse = c :: t2 := by
  rw [List.reverse_cons]
  cases hQ : t.reverse.dropWhile isWs with
  | nil =>
    rw [dropWhile_all_append isWs t.reverse [c]
      (List.dropWhile_eq_nil_iff.mp hQ)]
    exact ⟨[], by simp [List.dropWhile_cons, h]⟩
  | cons d ds =>
    rw [dropWhile_append_left isWs t.reverse [c] d ds hQ]
    exact ⟨ds.reverse ++ [d], by simp⟩

theorem exists_first_not_ws (pre : Str) (h : ¬ wsOnly pre) :
    ∃ a c b, pre = a ++ c :: b ∧ (∀ x ∈ a, isWs x = true) ∧ isWs c = false := by
  induction pre with
  | nil => exact absurd (fun c hc => absurd hc (List.not_mem_nil c)) h
  | cons x xs ih =>
    by_cases hx : isWs x = true
    · by_cases hxs : wsOnly xs
      · exact absurd (fun c hc => by
          rcases List.mem_cons.mp hc with rfl | hc
          · exact hx
          · exact hxs c hc) h
      · obtain ⟨a, c, b, rfl, ha, hc⟩ := ih hxs
        exact ⟨x :: a, c, b, rfl, fun y hy => by
          rcases List.mem_cons.mp hy with rfl | hy
          · exact hx
          · exact ha y hy, hc⟩
    · exact ⟨[], x, xs, rfl, by simp, by simpa using hx⟩

/-- If the leading prose has a visible character, the trimmed concatenation
starts with the first such character. -/
theorem trim_head_not_ws (pre X : Str) (h : ¬ wsOnly pre) :
    ∃ c t2, jsTrim (pre ++ X) = c :: t2 ∧ c ∈ pre ∧ isWs c = false := by
  obtain ⟨a, c, b, rfl, ha, hc⟩ := exists_first_not_ws pre h
  have h1 : ((a ++ c :: b) ++ X).dropWhile isWs = c :: (b ++ X) := by
    rw [List.append_assoc, dropWhile_all_append isWs a _ ha, List.cons_append,
      List.dropWhile_cons, hc]
    simp
  unfold jsTrim
  rw [h1]
  obtain ⟨t2, ht2⟩ := rtrim_head c (b ++ X) hc
  exact ⟨c, t2, ht2, by simp, hc⟩

/-- Trimming whitespace-led text around a serialized object peels down to the
object plus a (possibly empty) tail. -/
theorem trim_stringify_obj (pre Q : Str) (l : List (Str × Json)) (hpre : wsOnly pre) :
    ∃ Q2, jsTrim (pre ++ (stringify (.obj l) ++ Q)) = stringify (.obj l) ++ Q2 := by
  have hS : stringify (.obj l) = '\x7b' :: (stringifyObj l ++ ['\x7d']) := by
    rw [stringify]
  unfold jsTrim
  rw [dropWhile_all_append isWs pre _ hpre, hS]
  rw [show ('\x7b' :: (stringifyObj l ++ ['\x7d']) ++ Q).dropWhile isWs
      = '\x7b' :: (stringifyObj l ++ ['\x7d']) ++ Q from by
    rw [List.cons_append, List.dropWhile_cons]
    simp [show isWs '\x7b' = false by decide]]
  rw [show ('\x7b' :: (stringifyObj l ++ ['\x7d']) ++ Q).reverse
      = Q.reverse ++ ('\x7d' :: (stringifyObj l).reverse ++ ['\x7b']) from by simp]
  cases hQ : Q.reverse.dropWhile isWs with
  | nil =>
    rw [dropWhile_all_append isWs Q.reverse _ (List.dropWhile_eq_nil_iff.mp hQ)]
    refine ⟨[], ?_⟩
    rw [show (('\x7d' :: (stringifyObj l).reverse ++ ['\x7b']).dropWhile isWs)
        = '\x7d' :: (stringifyObj l).reverse ++ ['\x7b'] from by
      rw [List.cons_append, List.dropWhile_cons]
      simp [show isWs '\x7d' = false by decide]]
    simp
  | cons d ds =>
    rw [dropWhile_append_left isWs Q.reverse _ d ds hQ]
    refine ⟨ds.reverse ++ [d], ?_⟩
    simp

theorem findIdx?_first (p : Char → Bool) (A : Str) (x : Char) (rest : Str) (i : Nat)
    (hA : ∀ a ∈ A, p a = false) (hx : p x = true) :
    (A ++ x :: rest).findIdx? p i = some (A.length + i) := by
  induction A generalizing i with
  | nil => simp [List.findIdx?_cons, hx]
  | cons a as ihA =>
    have ha : p a = false := hA a (by simp)
    rw [List.cons_append, List.findIdx?_cons, ha]
    simp only [Bool.false_eq_true, if_false]
    rw [ihA (i + 1) (fun y hy => hA y (by simp [hy]))]
    simp only [List.length_cons, Option.some.injEq]
    omega

/-- The first-`{`-to-last-`}` extraction on brace-free surroundings recovers
exactly the serialized object. -/
theorem braceSpan_sandwich (A B M : Str) (hA : braceFree A) (hB : braceFree B) :
    braceSpan (A ++ ('\x7b' :: (M ++ ['\x7d'])) ++ B)
      = some ('\x7b' :: (M ++ ['\x7d'])) := by
  unfold braceSpan
  have h1 : (A ++ ('\x7b' :: (M ++ ['\x7d'])) ++ B).findIdx? (· = '\x7b') 0
      = some A.length := by
    rw [List.append_assoc, List.cons_append]
    rw [findIdx?_first _ A '\x7b' _ 0 (fun a ha => by simp [(hA a ha).1]) (by decide)]
    simp
  have h2 : (A ++ ('\x7b' :: (M ++ ['\x7d'])) ++ B).reverse.findIdx? (· = '\x7d') 0
      = some B.length := by
    rw [show (A ++ ('\x7b' :: (M ++ ['\x7d'])) ++ B).reverse
        = B.reverse ++ '\x7d' :: (M.reverse ++ ('\x7b' :: A.reverse)) from by simp]
    rw [findIdx?_first _ B.reverse '\x7d' _ 0
      (fun a ha => by simp [(hB a (List.mem_reverse.mp ha)).2]) (by decide)]
    simp
  rw [h1, h2]
  have hlen : (A ++ ('\x7b' :: (M ++ ['\x7d'])) ++ B).length
      = A.length + M.length + 2 + B.length := by
    simp [List.length_append, List.length_cons]
    omega
  simp only [hlen]
  rw [if_pos (by omega)]
  have hdrop : (A ++ ('\x7b' :: (M ++ ['\x7d'])) ++ B).drop A.length
      = ('\x7b' :: (M ++ ['\x7d'])) ++ B := by
    rw [List.append_assoc, List.drop_left]
  rw [hdrop]
  rw [show A.length + M.length + 2 + B.length - 1 - B.length - A.length + 1
      = ('\x7b' :: (M ++ ['\x7d'])).length from by
    simp [List.length_cons, List.length_append]
    omega]
  rw [List.take_left]

theorem startsWith_cons_ne (p c : Char) (ps cs : Str) (h : p ≠ c) :
    startsWith (p :: ps) (c :: cs) = false := by
  simp [startsWith, h]

/-- Skipping exactly the length of a prefix lands after it. -/
theorem replaceDelGo_skip (pat A B : Str) :
    replaceDelGo pat A.length (A ++ B) = replaceDelGo pat 0 B := by
  induction A with
  | nil => rfl
  | cons a as ih =>
    show replaceDelGo pat (as.length + 1) (a :: (as ++ B)) = _
    rw [replaceDelGo]
    exact ih

/-- A backtick-anchored pattern never fires inside backtick-free text. -/
theorem replaceDelGo_id (pat s : Str) (p2 : Str) (hp : pat = tick :: p2)
    (hs : noTick s) : replaceDelGo pat 0 s = s := by
  induction s with
  | nil => rfl
  | cons c cs ih =>
    have hc : c ≠ tick := hs c (by simp)
    rw [replaceDelGo]
    rw [show pat ++ ['\n'] = tick :: (p2 ++ ['\n']) from by rw [hp]; rfl]
    rw [startsWith_cons_ne _ _ _ _ (fun he => hc he.symm), hp,
      startsWith_cons_ne _ _ _ _ (fun he => hc he.symm)]
    simp only [Bool.false_eq_true, if_false]
    rw [← hp, ih (fun x hx => hs x (by simp [hx]))]

/-- The global replace distributes over a backtick-free prefix. -/
theorem replaceDelGo_dist (pat A B : Str) (p2 : Str) (hp : pat = tick :: p2)
    (hA : noTick A) :
    replaceDelGo pat 0 (A ++ B) = A ++ replaceDelGo pat 0 B := by
  induction A with
  | nil => rfl
  | cons a as ih =>
    have hc : a ≠ tick := hA a (by simp)
    show replaceDelGo pat 0 (a :: (as ++ B)) = _
    rw [replaceDelGo]
    rw [show pat ++ ['\n'] = tick :: (p2 ++ ['\n']) from by rw [hp]; rfl]
    rw [startsWith_cons_ne _ _ _ _ (fun he => hc he.symm), hp,
      startsWith_cons_ne _ _ _ _ (fun he => hc he.symm)]
    simp only [Bool.false_eq_true, if_false]
    rw [← hp, ih (fun x hx => hA x (by simp [hx]))]
    rfl

theorem startsWith_append_cancel (P X Y : Str) :
    startsWith (P ++ X) (P ++ Y) = startsWith X Y := by
  induction P with
  | nil => rfl
  | cons p ps ih => simp [startsWith, ih]

theorem startsWith_of_append (X Z s : Str) (h : startsWith (X ++ Z) s = true) :
    startsWith X s = true := by
  induction X generalizing s with
  | nil => rfl
  | cons x xs ih =>
    cases s with
    | nil => exact absurd h (by simp [startsWith])
    | cons c cs =>
      simp only [List.cons_append, startsWith, Bool.and_eq_true] at h ⊢
      exact ⟨h.1, ih cs h.2⟩

theorem startsWith_tick_of_noTick (X post : Str) (hpost : noTick post) :
    startsWith (tick :: X) post = false := by
  cases post with
  | nil => rfl
  | cons c cs => exact startsWith_cons_ne _ _ _ _ (fun he => hpost c (by simp) he.symm)

theorem noTick_append (a b : Str) (ha : noTick a) (hb : noTick b) : noTick (a ++ b) :=
  fun c hc => by
    rcases List.mem_append.mp hc with h | h
    · exact ha c h
    · exact hb c h

/-- Opening fence: the `/```json\n?/` replace consumes `` ```json `` and its
newline. -/
theorem replaceDel_open_fence (rest : Str) :
    replaceDelGo (str "```json") 0 (str "```json" ++ '\n' :: rest)
      = replaceDelGo (str "```json") 0 rest := by
  show replaceDelGo (str "```json") 0 (tick :: ((str "``json" ++ ['\n']) ++ rest)) = _
  rw [replaceDelGo]
  have h1 : startsWith (str "```json" ++ ['\n'])
      (tick :: ((str "``json" ++ ['\n']) ++ rest)) = true := by
    show startsWith (str "```json" ++ ['\n']) ((str "```json" ++ ['\n']) ++ rest) = true
    exact startsWith_self_append _ _
  rw [h1]
  simp only [if_true]
  rw [show (str "```json").length = (str "``json" ++ ['\n']).length from rfl,
    replaceDelGo_skip]

/-- The `/```json\n?/` replace does not fire on a plain closing fence when the
trailing prose does not begin with `json`. -/
theorem replaceDel_close_keep (post : Str) (hpost : noTick post)
    (hj : startsWith (str "json") post = false) :
    replaceDelGo (str "```json") 0 (str "```" ++ post) = str "```" ++ post := by
  have hs1 : startsWith (str "```json" ++ ['\n']) (tick :: (str "``" ++ post)) = false := by
    show startsWith (str "```" ++ (str "json" ++ ['\n'])) (str "```" ++ post) = false
    rw [startsWith_append_cancel]
    cases hsw : startsWith (str "json" ++ ['\n']) post with
    | false => rfl
    | true => exact absurd (startsWith_of_append _ _ _ hsw) (by simp [hj])
  have hs2 : startsWith (str "```json") (tick :: (str "``" ++ post)) = false := by
    show startsWith (str "```" ++ str "json") (str "```" ++ post) = false
    rw [startsWith_append_cancel]
    exact hj
  show replaceDelGo (str "```json") 0 (tick :: (str "``" ++ post)) = _
  rw [replaceDelGo, hs1, hs2]
  simp only [Bool.false_eq_true, if_false]
  have hs3 : startsWith (str "```json" ++ ['\n']) (tick :: (str "`" ++ post)) = false := by
    show startsWith (str "``" ++ (str "`json" ++ ['\n'])) (str "``" ++ post) = false
    rw [startsWith_append_cancel]
    exact startsWith_tick_of_noTick _ _ hpost
  have hs4 : startsWith (str "```json") (tick :: (str "`" ++ post)) = false := by
    show startsWith (str "``" ++ str "`json") (str "``" ++ post) = false
    rw [startsWith_append_cancel]
    exact startsWith_tick_of_noTick _ _ hpost
  show tick :: replaceDelGo (str "```json") 0 (tick :: (str "`" ++ post)) = _
  rw [replaceDelGo, hs3, hs4]
  simp only [Bool.false_eq_true, if_false]
  have hs5 : startsWith (str "```json" ++ ['\n']) (tick :: post) = false := by
    show startsWith (str "`" ++ (str "``json" ++ ['\n'])) (str "`" ++ post) = false
    rw [startsWith_append_cancel]
    exact startsWith_tick_of_noTick _ _ hpost
  have hs6 : startsWith (str "```json") (tick :: post) = false := by
    show startsWith (str "`" ++ str "``json") (str "`" ++ post) = false
    rw [startsWith_append_cancel]
    exact startsWith_tick_of_noTick _ _ hpost
  show tick :: tick :: replaceDelGo (str "```json") 0 (tick :: post) = _
  rw [replaceDelGo, hs5, hs6]
  simp only [Bool.false_eq_true, if_false]
  rw [replaceDelGo_id (str "```json") post (str "``json") rfl hpost]
  rfl

/-- The text after a closing fence, with the fence's optional newline gone. -/
def stripLf (s : Str) : Str :=
  match s with
  | '\n' :: p => p
  | _ => s

/-- Closing fence: the `/```\n?/` replace consumes `` ``` `` and one optional
newline. -/
theorem replaceDel_close_ticks (post : Str) (hpost : noTick post) :
    replaceDelGo (str "```") 0 (str "```" ++ post) = stripLf post := by
  show replaceDelGo (str "```") 0 (tick :: (str "``" ++ post)) = _
  rw [replaceDelGo]
  rcases post with - | ⟨c, p⟩
  · have hs1 : startsWith (str "```" ++ ['\n']) (tick :: (str "``" ++ [])) = false := by
      show startsWith (str "```" ++ ['\n']) (str "```" ++ []) = false
      rw [startsWith_append_cancel]
      rfl
    have hs2 : startsWith (str "```") (tick :: (str "``" ++ [])) = true := by
      show startsWith (str "```" ++ []) (str "```" ++ []) = true
      exact startsWith_self_append _ _
    rw [hs1, hs2]
    simp only [Bool.false_eq_true, if_false, if_true]
    rfl
  · by_cases hc : c = '\n'
    · subst hc
      have hs1 : startsWith (str "```" ++ ['\n']) (tick :: (str "``" ++ '\n' :: p))
          = true := by
        show startsWith (str "```" ++ ['\n']) ((str "```" ++ ['\n']) ++ p) = true
        exact startsWith_self_append _ _
      rw [hs1]
      simp only [if_true]
      rw [show str "``" ++ '\n' :: p = (str "``" ++ ['\n']) ++ p from by simp]
      rw [show (str "```").length = (str "``" ++ ['\n']).length from rfl,
        replaceDelGo_skip]
      rw [replaceDelGo_id (str "```") p (str "``") rfl
        (fun x hx => hpost x (by simp [hx]))]
      rfl
    · have hs1 : startsWith (str "```" ++ ['\n']) (tick :: (str "``" ++ c :: p))
          = false := by
        show startsWith (str "```" ++ ['\n']) (str "```" ++ c :: p) = false
        rw [startsWith_append_cancel]
        exact startsWith_cons_ne _ _ _ _ (fun he => hc he.symm)
      have hs2 : startsWith (str "```") (tick :: (str "``" ++ c :: p)) = true := by
        show startsWith (str "```" ++ []) (str "```" ++ c :: p) = true
        rw [startsWith_append_cancel]
        rfl
      rw [hs1, hs2]
      simp only [Bool.false_eq_true, if_false, if_true]
      rw [show (str "```").length - 1 = (str "``").length from rfl, replaceDelGo_skip]
      rw [replaceDelGo_id (str "```") (c :: p) (str "``") rfl hpost]
      show c :: p = stripLf (c :: p)
      rw [stripLf]
      intro p1 heq
      exact hc (List.cons.inj heq).1

/-- With no backticks anywhere, the fence-stripping is the identity and
`cleanedText` is just the trim. -/
theorem cleanedText_unfenced (pre S post : Str) (hpre : noTick pre) (hS : noTick S)
    (hpost : noTick post) :
    cleanedText (pre ++ (S ++ post)) = jsTrim (pre ++ (S ++ post)) := by
  unfold cleanedText replaceDel
  rw [replaceDelGo_id (str "```json") _ (str "``json") rfl
    (noTick_append _ _ hpre (noTick_append _ _ hS hpost))]
  rw [replaceDelGo_id (str "```") _ (str "``") rfl
    (noTick_append _ _ hpre (noTick_append _ _ hS hpost))]

/-- Fence stripping on a properly fenced payload removes exactly the fence
markers (plus one newline after each). -/
theorem cleanedText_fenced (pre S post : Str) (hpre : noTick pre) (hS : noTick S)
    (hpost : noTick post) (hj : startsWith (str "json") post = false) :
    cleanedText (pre ++ (str "```json" ++ ('\n' :: (S ++ ('\n' :: (str "```" ++ post))))))
      = jsTrim (pre ++ (S ++ ('\n' :: stripLf post))) := by
  have hlf : noTick ['\n'] := fun x hx => by
    simp at hx
    subst hx
    decide
  unfold cleanedText replaceDel
  rw [replaceDelGo_dist (str "```json") pre _ (str "``json") rfl hpre]
  rw [replaceDel_open_fence]
  rw [show S ++ ('\n' :: (str "```" ++ post))
      = (S ++ ['\n']) ++ (str "```" ++ post) from by simp]
  rw [replaceDelGo_dist (str "```json") (S ++ ['\n']) _ (str "``json") rfl
    (noTick_append _ _ hS hlf)]
  rw [replaceDel_close_keep post hpost hj]
  rw [show pre ++ ((S ++ ['\n']) ++ (str "```" ++ post))
      = (pre ++ (S ++ ['\n'])) ++ (str "```" ++ post) from by simp]
  rw [replaceDelGo_dist (str "```") (pre ++ (S ++ ['\n'])) _ (str "``") rfl
    (noTick_append _ _ hpre (noTick_append _ _ hS hlf))]
  rw [replaceDel_close_ticks post hpost]
  congr 1
  simp

/-- Core of the round trip: whenever the cleaned text trims to the serialized
object with some tail and the brace extraction of the raw text recovers the
serialized object exactly, the normalizer returns the object. -/
theorem parseCR_core (l : List (Str × Json)) (pre Q : Str) (text : Str)
    (hclean : cleanedText text = jsTrim (pre ++ (stringify (.obj l) ++ Q)))
    (hspan : braceSpan text = some (stringify (.obj l)))
    (hwf : jsonWF (.obj l) = true) (hpre : braceFree pre) :
    parseClaudeResponse text = .ok (.obj l) := by
  have hfb : (match braceSpan text with
      | some m => match jsonParse m with
        | some r => (Except.ok r : Except NormErr Json)
        | none => .error .syntaxErr
      | none => .error .malformed) = .ok (.obj l) := by
    rw [hspan]
    simp only [jsonParse_stringify _ hwf]
  have hjp : ∀ v, jsonParse (cleanedText text) = some v → shapeOk v = true →
      v = .obj l := by
    intro v hv hs
    by_cases hws : wsOnly pre
    · obtain ⟨Q2, hQ2⟩ := trim_stringify_obj pre Q l hws
      rw [hclean, hQ2] at hv
      have hA := (jsonFuel_le (sizeOf (Json.obj l))).1 _ le_rfl hwf
      have hfuel : jsonFuel (.obj l)
          ≤ 2 * (stringify (.obj l) ++ Q2).length + 2 := by
        simp only [List.length_append]
        omega
      have hPV := parseVal_obj_rt l hwf
        (2 * (stringify (.obj l) ++ Q2).length + 2) Q2 hfuel
      unfold jsonParse at hv
      simp only [hPV] at hv
      split at hv
      · exact (Option.some.inj hv).symm
      · exact absurd hv (by simp)
    · obtain ⟨fl, rfl⟩ := shapeOk_obj v hs
      obtain ⟨t, hstart⟩ := jsonParse_obj_start _ _ hv
      rw [hclean] at hstart
      obtain ⟨c, t2, hR, hcpre, hcws⟩ := trim_head_not_ws pre _ hws
      rw [hR, dropWhile_id_of_head c t2 hcws] at hstart
      exact absurd (List.cons.inj hstart).1 (hpre c hcpre).1
  unfold parseClaudeResponse
  cases hv : jsonParse (cleanedText text) with
  | none =>
    simp only [hv]
    exact hfb
  | some v =>
    simp only [hv]
    by_cases hs : shapeOk v = true
    · rw [if_pos hs, hjp v hv hs]
    · rw [if_neg hs]
      exact hfb

instance (s : Str) : Decidable (noTick s) := List.decidableBAll _ s

instance (s : Str) : Decidable (braceFree s) := List.decidableBAll _ s

theorem braceFree_append (a b : Str) (ha : braceFree a) (hb : braceFree b) :
    braceFree (a ++ b) := fun c hc => by
  rcases List.mem_append.mp hc with h | h
  · exact ha c h
  · exact hb c h

/-- C7 (amended): for a well-formed object whose serialization contains no
backtick, embedded verbatim in a raw generation text — optionally wrapped in
```json fences and optionally surrounded by leading/trailing prose that is
brace-free and backtick-free (trailing prose not starting with "json" in the
fenced form) — the Response Normalizer returns exactly that object; but
without the backtick restriction the round trip fails, because the fence
regexes also delete backticks inside JSON string values. -/
theorem normalizer_roundtrip (l : List (Str × Json)) (pre post : Str) (fenced : Bool)
    (hwf : jsonWF (.obj l) = true)
    (_hshape : shapeOk (.obj l) = true)
    (hS : noTick (stringify (.obj l)))
    (hpre : braceFree pre) (hpreT : noTick pre)
    (hpost : braceFree post) (hpostT : noTick post)
    (hj : fenced = true → startsWith (str "json") post = false) :
    parseClaudeResponse
      (if fenced then
        pre ++ (str "```json" ++ ('\n' :: (stringify (.obj l)
          ++ ('\n' :: (str "```" ++ post)))))
      else pre ++ (stringify (.obj l) ++ post)) = .ok (.obj l) := by
  have hSdef : stringify (.obj l) = '\x7b' :: (stringifyObj l ++ ['\x7d']) := by
    rw [stringify]
  cases fenced with
  | false =>
    rw [if_neg (by simp)]
    refine parseCR_core l pre post _ ?_ ?_ hwf hpre
    · exact cleanedText_unfenced pre _ post hpreT hS hpostT
    · rw [hSdef, ← List.append_assoc]
      exact braceSpan_sandwich pre post (stringifyObj l) hpre hpost
  | true =>
    rw [if_pos rfl]
    refine parseCR_core l pre ('\n' :: stripLf post) _ ?_ ?_ hwf hpre
    · exact cleanedText_fenced pre _ post hpreT hS hpostT (hj rfl)
    · have hbf1 : braceFree (pre ++ (str "```json" ++ ['\n'])) :=
        braceFree_append _ _ hpre (by decide)
      have hbf2 : braceFree ('\n' :: (str "```" ++ post)) := fun c hc => by
        rcases List.mem_cons.mp hc with rfl | hc
        · decide
        rcases List.mem_append.mp hc with h | h
        · exact (show braceFree (str "```") by decide) c h
        · exact hpost c h
      rw [hSdef]
      rw [show pre ++ (str "```json" ++ ('\n' :: (('\x7b' :: (stringifyObj l ++ ['\x7d']))
          ++ ('\n' :: (str "```" ++ post)))))
          = (pre ++ (str "```json" ++ ['\n'])) ++ ('\x7b' :: (stringifyObj l ++ ['\x7d']))
            ++ ('\n' :: (str "```" ++ post)) from by simp]
      exact braceSpan_sandwich _ _ _ hbf1 hbf2

def c7fields : List (Str × Json) :=
  [(str "title", .str (str "T")), (str "overview", .str (str "O")),
    (str "sections", .arr [.str (str "s")])]

theorem normalizer_roundtrip_witness :
    parseClaudeResponse
      (str "Here is the result:\n" ++ (str "```json" ++ ('\n' :: (stringify (.obj c7fields)
        ++ ('\n' :: (str "```" ++ str "\nEnjoy!")))))) = .ok (.obj c7fields) := by
  have h := normalizer_roundtrip c7fields (str "Here is the result:\n") (str "\nEnjoy!")
    true rfl rfl (by decide) (by decide) (by decide) (by decide) (by decide)
    (fun _ => by decide)
  rw [if_pos rfl] at h
  exact h

def c7badFields : List (Str × Json) :=
  [(str "title", .str (str "a" ++ [tick, tick, tick] ++ str "b")),
    (str "overview", .str (str "O")), (str "sections", .arr [.str (str "s")])]

def c7strippedFields : List (Str × Json) :=
  [(str "title", .str (str "ab")),
    (str "overview", .str (str "O")), (str "sections", .arr [.str (str "s")])]

/-- C7 counterexample: a valid RunOfShow-shaped object whose `title` contains
three backticks does not round-trip — the fence-stripping regex deletes the
backticks inside the JSON string value, so the normalizer returns an object
with a different `title`. -/
theorem normalizer_not_roundtrip :
    shapeOk (.obj c7badFields) = true ∧
    jsonWF (.obj c7badFields) = true ∧
    parseClaudeResponse (stringify (.obj c7badFields)) = .ok (.obj c7strippedFields) ∧
    jlookup (.obj c7badFields) (str "title")
      = some (.str (str "a" ++ [tick, tick, tick] ++ str "b")) ∧
    jlookup (.obj c7strippedFields) (str "title") = some (.str (str "ab")) ∧
    str "a" ++ [tick, tick, tick] ++ str "b" ≠ str "ab" :=
  ⟨rfl, rfl, rfl, rfl, rfl, by decide⟩
